import Mathlib

/-!
Verification of the fstr string-templating library (github.com/crazywolf132/fstr).

The repository contains several generations of the same design:
  * a byte-scanner renderer `Sprintf` with helpers `parseFormatFast`,
    `parsePlaceholderFast`, `findClosingBraceFast`, `getArgOrNoValue`,
    `getFieldChainValueFast`, `formatValFast` (fstr.go, and a cached twin in
    the unnamed source part that adds the `formatCache` / `parseFormatAndCache`
    layer around the same scanner);
  * a regex-driven renderer `F` with helpers `parse`, `parsePlaceholder`,
    `parseFormatSpecifier`, `formatArg`, `formatString`, `formatInteger`,
    `formatBool`, `applyColor`, `applyCondition`, `getNestedValue`,
    `getParsedFormat` (format.go, cache.go and the parser source part).

This file shallowly embeds both pipelines.  Strings are modelled as `List Char`
(one entry per rune; the sources are exercised on ASCII data, where Go's
byte-oriented `len` and indexing agree with rune counts).  Go's `interface{}`
values are modelled by the inductive type `Value` below; a Go `nil` interface
is `Option.none` at use sites.  Functions that can panic in Go return
`Option` results with `none` marking the panic.  Scanning loops take an
explicit fuel argument (always called with fuel larger than the input length,
which every step shrinks), so that all definitions reduce by `rfl`/`decide`.
-/

namespace Fstr

/-- Strings are lists of characters. -/
abbrev Str := List Char

/-- Convert a Lean string literal to the `Str` model. -/
def sl (s : String) : Str := s.toList

/-- The sentinel emitted for a missing argument. -/
def noValueStr : Str := sl (r"<no value>")

/-- The sentinel emitted for a failed field-chain step. -/
def invalidFieldStr : Str := sl (r"<invalid field>")

/-- The sentinel the regex-based renderer emits for a nil argument. -/
def nilStr : Str := sl (r"<nil>")

/--
Model of Go `interface{}` values in the fragment the library is exercised on:
strings, signed integers, booleans, `[]interface{}` slices, `map[string]T`
maps with concrete (non-nil) element values, exported-field structs without
embedded (anonymous) fields or field tags, and pointers.  `VPtr none` is a
typed nil pointer to a non-struct type; `VPtrNil flds` is a typed nil pointer
whose element type is a struct with the given field layout (the layout is
needed because Go's reflection walks the element *type* of a nil pointer when
building its field cache).  A nil `interface{}` itself is represented as
`Option.none` where it can occur.  Floats, Stringers and channels are outside
the modelled fragment; none of the claims depend on them.
-/
inductive Value : Type where
  | VStr : Str → Value
  | VInt : Int → Value
  | VBool : Bool → Value
  | VSeq : List Value → Value
  | VMap : List (Str × Value) → Value
  | VStruct : Str → List (Str × Value) → Value
  | VPtr : Option Value → Value
  | VPtrNil : List (Str × Value) → Value

open Value

/-- First-match association lookup (Go map indexing / struct `FieldByName`
on the modelled structs, whose field names are distinct). -/
def lookupStr : List (Str × Value) → Str → Option Value
  | [], _ => none
  | (k, v) :: rest, f => if k = f then some v else lookupStr rest f

/-- Decimal digits of a natural number (little-endian helper). -/
def natDigitsAux : Nat → Nat → List Char
  | 0, _ => []
  | _ + 1, 0 => []
  | fuel + 1, n => Char.ofNat (n % 10 + 48) :: natDigitsAux fuel (n / 10)

/-- Decimal representation of a natural number. -/
def natToDec (n : Nat) : Str :=
  if n = 0 then ['0'] else (natDigitsAux n n).reverse

/-- Decimal representation of an integer, as produced by `writeInt` /
`strconv.FormatInt(v, 10)`. -/
def intToDec (i : Int) : Str :=
  if i < 0 then '-' :: natToDec i.natAbs else natToDec i.natAbs

/-- Digits of a natural number in a given base (≥ 2), lowercase, little-endian
helper. -/
def natBaseAux (b : Nat) : Nat → Nat → List Char
  | 0, _ => []
  | _ + 1, 0 => []
  | fuel + 1, n =>
      (if n % b < 10 then Char.ofNat (n % b + 48) else Char.ofNat (n % b + 87))
        :: natBaseAux b fuel (n / b)

/-- Representation of a natural number in base `b`, lowercase digits. -/
def natToBase (b : Nat) (n : Nat) : Str :=
  if n = 0 then ['0'] else (natBaseAux b n n).reverse

/-- `strconv.FormatInt(v, b)`: minus sign followed by base-`b` digits. -/
def intToBase (b : Nat) (i : Int) : Str :=
  if i < 0 then '-' :: natToBase b i.natAbs else natToBase b i.natAbs

/-- Uppercase an ASCII letter (Go `strings.ToUpper` on hex digits). -/
def upChar (c : Char) : Char :=
  if 'a' ≤ c ∧ c ≤ 'z' then Char.ofNat (c.toNat - 32) else c

/-- Go `strings.ToUpper` restricted to ASCII. -/
def upStr (s : Str) : Str := s.map upChar

/-- Lowercase an ASCII letter. -/
def lowChar (c : Char) : Char :=
  if 'A' ≤ c ∧ c ≤ 'Z' then Char.ofNat (c.toNat + 32) else c

/-- Go `strings.ToLower` restricted to ASCII. -/
def lowStr (s : Str) : Str := s.map lowChar

/-- Go `[a-zA-Z0-9_]` word characters (the `nameRegex` character class). -/
def isWordChar (c : Char) : Bool :=
  c.isAlpha || c.isDigit || c = '_'

/-- Numeric value of a digit string (Go `strconv.ParseInt` on an all-digit
string; 64-bit overflow is outside the modelled fragment). -/
def digitsToNat (s : Str) : Nat :=
  s.foldl (fun a c => a * 10 + (c.toNat - 48)) 0

/-- Go `strconv.Atoi`: optional sign, then one or more digits, nothing else. -/
def goAtoi (s : Str) : Option Int :=
  match s with
  | [] => none
  | '+' :: rest => if rest ≠ [] ∧ rest.all Char.isDigit then some (digitsToNat rest) else none
  | '-' :: rest => if rest ≠ [] ∧ rest.all Char.isDigit then some (-(digitsToNat rest : Int)) else none
  | _ => if s.all Char.isDigit then some (digitsToNat s) else none

/-- Go `strings.Split(s, sep)` for a one-character separator: splits on every
occurrence, keeping empty parts. -/
def splitOnChar (sep : Char) : Str → List Str
  | [] => [[]]
  | c :: rest =>
      if c = sep then
        [] :: splitOnChar sep rest
      else
        match splitOnChar sep rest with
        | [] => [[c]]
        | p :: ps => (c :: p) :: ps

/-!
## Byte-scanner pipeline (fstr.go and its cached twin)

`placeholder` in fstr.go holds an optional positional index, a field chain and
the raw format spec after the colon.  `parsePlaceholderFast` parses the text
between `{` and `}`.
-/

/-- `placeholder` of the byte-scanner source: `PositionalIndex`,
`FieldChain`, `Spec`.  Indices parsed from digit runs are non-negative, so a
`Nat` models the Go `*int`. -/
structure Ph where
  posIdx : Option Nat
  fieldChain : List Str
  spec : Str
deriving DecidableEq, Repr

/-- Scan the digit-headed field part of a placeholder: mirror of the loop in
`parsePlaceholderFast` that looks for a `.` (positional index with chain) or a
non-digit (bail out with neither index nor chain). -/
def scanDigitFieldPart (fieldPart : Str) (sp : Str) : Ph :=
  match fieldPart.findIdx? (fun c => ¬ c.isDigit) with
  | none =>
      { posIdx := some (digitsToNat fieldPart), fieldChain := [], spec := sp }
  | some i =>
      if h : i < fieldPart.length then
        if fieldPart.get ⟨i, h⟩ = '.' then
          { posIdx := some (digitsToNat (fieldPart.take i))
            fieldChain := splitOnChar '.' (fieldPart.drop (i + 1))
            spec := sp }
        else
          { posIdx := none, fieldChain := [], spec := sp }
      else
        { posIdx := some (digitsToNat fieldPart), fieldChain := [], spec := sp }

/-- `parsePlaceholderFast` (fstr.go): split the brace content on the first
`:` into field part and spec; a digit-headed field part is a positional index
with optional dotted chain, otherwise the field part is a named dotted
chain. -/
def parsePlaceholderFast (data : Str) : Ph :=
  let specStart := data.findIdx? (fun c => c = ':')
  let fieldPart := match specStart with
    | some i => data.take i
    | none => data
  let sp : Str := match specStart with
    | some i => data.drop (i + 1)
    | none => []
  match fieldPart with
  | [] => { posIdx := none, fieldChain := [], spec := sp }
  | c :: _ =>
      if c.isDigit then
        scanDigitFieldPart fieldPart sp
      else
        { posIdx := none, fieldChain := splitOnChar '.' fieldPart, spec := sp }

/-- `findClosingBraceFast` (fstr.go): index of the first `}`. -/
def findClosingBraceFast (data : Str) : Option Nat :=
  data.findIdx? (fun c => c = '}')

/--
The scanning loop of `parseFormatFast` (fstr.go).  `acc` is the current
literal segment being built (`lastSegment`).  Escaped `{{` / `}}` append a
literal brace; an unescaped `{` flushes the current segment (even when empty)
and looks for the first `}`: if found, the content becomes a placeholder,
otherwise the `{` is written into a fresh segment and scanning continues.  A
lone `}` is a literal.  At the end the pending segment is flushed only when
non-empty.  The fuel argument strictly exceeds the input length at every call
from the wrapper below, and every step consumes at least one character.
-/
def parseScanF : Nat → Str → Str → List Str × List Ph
  | 0, _, _ => ([], [])
  | _ + 1, [], acc => (if acc = [] then [] else [acc], [])
  | fuel + 1, '{' :: '{' :: rest, acc => parseScanF fuel rest (acc ++ ['{'])
  | fuel + 1, '{' :: rest, acc =>
      match findClosingBraceFast rest with
      | none =>
          let r := parseScanF fuel rest ['{']
          (acc :: r.1, r.2)
      | some j =>
          let r := parseScanF fuel (rest.drop (j + 1)) []
          (acc :: r.1, parsePlaceholderFast (rest.take j) :: r.2)
  | fuel + 1, '}' :: '}' :: rest, acc => parseScanF fuel rest (acc ++ ['}'])
  | fuel + 1, '}' :: rest, acc => parseScanF fuel rest (acc ++ ['}'])
  | fuel + 1, c :: rest, acc => parseScanF fuel rest (acc ++ [c])

/-- The scanner run with its canonical fuel (one more than the input
length; every step consumes at least one character, so this always
suffices — `parseScanF_fuel` below shows any sufficient fuel agrees). -/
def parseScan (s acc : Str) : List Str × List Ph :=
  parseScanF (s.length + 1) s acc

/-- `parseFormatFast` (fstr.go): run the scanner on the whole format with
fresh (empty) segment and placeholder accumulators. -/
def parseFormatFast (format : Str) : List Str × List Ph :=
  parseScan format []

/-!
## Field-chain resolution (`getFieldChainValueFast`, fstr.go)

The resolver can panic in Go: when `FieldByName` misses, a type-directed
cache of nested field index paths is consulted and `FieldByIndex` is used,
which panics when an intermediate pointer-to-struct is nil.  Functions below
return `none` for a Go panic.
-/

/-- Generic first-match association lookup. -/
def lookupA {β : Type} : List (Str × β) → Str → Option β
  | [], _ => none
  | (k, v) :: rest, f => if k = f then some v else lookupA rest f

/-- The pointer-chasing loop (`for typ.Kind() == reflect.Ptr`): `none` when a
nil pointer is hit. -/
def derefPtrs : Value → Option Value
  | VPtr none => none
  | VPtrNil _ => none
  | VPtr (some v) => derefPtrs v
  | v => some v

/-- Fuel bound for value-shape recursions (`buildFieldCache`, `%v`
rendering).  It bounds the number of emitted cache entries / printed nodes;
all modelled values are far smaller. -/
def shapeFuel : Nat := 1000

/--
Model of `buildFieldCache` (fstr.go) on the shape of a struct value: emit
`(name, prefix ++ [i])` for field `i`, recursing into struct-typed and
pointer-to-struct-typed fields (including nil pointers, whose element type —
carried by `VPtrNil` — Go still walks).  Go writes into a map, so a later
entry with the same name overwrites an earlier one; the list keeps emission
order and `lookupLastIdx` takes the last write.
-/
def buildCacheV : Nat → List (Str × Value) → List Nat → Nat → List (Str × List Nat)
  | 0, _, _, _ => []
  | _ + 1, [], _, _ => []
  | fuel + 1, (n, v) :: rest, pre, i =>
      (n, pre ++ [i]) ::
      ((match v with
        | VStruct _ flds2 => buildCacheV fuel flds2 (pre ++ [i]) 0
        | VPtr (some (VStruct _ flds2)) => buildCacheV fuel flds2 (pre ++ [i]) 0
        | VPtrNil flds2 => buildCacheV fuel flds2 (pre ++ [i]) 0
        | _ => []) ++ buildCacheV fuel rest pre (i + 1))

/-- Last-write-wins lookup in the emitted cache entries (Go map overwrite
semantics). -/
def lookupLastIdx : List (Str × List Nat) → Str → Option (List Nat)
  | [], _ => none
  | (k, p) :: rest, f =>
      match lookupLastIdx rest f with
      | some q => some q
      | none => if k = f then some p else none

/-- `reflect.Value.Field(i)`: positional field access; `none` models the Go
panic on a non-struct value or an out-of-range index. -/
def fieldAt (v : Value) (i : Nat) : Option Value :=
  match v with
  | VStruct _ flds => (flds.get? i).map Prod.snd
  | _ => none

/-- One dereference step of `FieldByIndex` for indices after the first: a
pointer to a struct is dereferenced first, and a nil such pointer panics
(`none`). -/
def derefStructPtrStep : Value → Option Value
  | VPtr (some (VStruct n flds)) => some (VStruct n flds)
  | VPtrNil _ => none
  | v => some v

/-- Tail of `reflect.Value.FieldByIndex`: each subsequent index dereferences
a pointer-to-struct (panicking on nil) and then accesses the field. -/
def fieldByIndexRest (v : Value) : List Nat → Option Value
  | [] => some v
  | i :: rest =>
      match derefStructPtrStep v with
      | none => none
      | some v2 =>
          match fieldAt v2 i with
          | none => none
          | some f => fieldByIndexRest f rest

/-- `reflect.Value.FieldByIndex`: the first index is a plain field access,
later ones dereference pointers to structs first (nil pointer → panic). -/
def fieldByIndex (v : Value) : List Nat → Option Value
  | [] => some v
  | [i] => fieldAt v i
  | i :: rest =>
      match fieldAt v i with
      | none => none
      | some f => fieldByIndexRest f rest

/--
The struct-or-nested-map loop of `getFieldChainValueFast`.  For each field
name: a struct tries `FieldByName` (plain lookup), then the field-index cache
with `FieldByIndex` (which may panic → `none`); a map looks the key up;
any other shape fails with the `<invalid field>` sentinel.  After each step
pointers are chased, a nil pointer failing with the sentinel.
-/
def chainLoop : Value → List Str → Option Value
  | v, [] => some v
  | v, f :: rest =>
      match v with
      | VStruct n flds =>
          (match lookupA flds f with
           | some fv =>
               (match derefPtrs fv with
                | none => some (VStr invalidFieldStr)
                | some v2 => chainLoop v2 rest)
           | none =>
               match lookupLastIdx (buildCacheV shapeFuel flds [] 0) f with
               | none => some (VStr invalidFieldStr)
               | some idxPath =>
                   match fieldByIndex (VStruct n flds) idxPath with
                   | none => none
                   | some fv =>
                       match derefPtrs fv with
                       | none => some (VStr invalidFieldStr)
                       | some v2 => chainLoop v2 rest)
      | VMap m =>
          (match lookupA m f with
           | none => some (VStr invalidFieldStr)
           | some fv =>
               match derefPtrs fv with
               | none => some (VStr invalidFieldStr)
               | some v2 => chainLoop v2 rest)
      | _ => some (VStr invalidFieldStr)

/--
`getFieldChainValueFast` (fstr.go).  A nil base or an empty chain yields the
`<invalid field>` sentinel; pointers are chased (nil → sentinel); a top-level
string-keyed map resolves its first key directly, recursing on the rest of
the chain; any other shape enters `chainLoop`.  `none` models a Go panic
(reachable through the `FieldByIndex` path).  `VMap` models Go maps whose
element values are concrete and non-nil.
-/
def getFieldChainValueFast (base : Option Value) (fields : List Str) : Option Value :=
  match base with
  | none => some (VStr invalidFieldStr)
  | some b =>
      match fields with
      | [] => some (VStr invalidFieldStr)
      | f :: rest =>
          match derefPtrs b with
          | none => some (VStr invalidFieldStr)
          | some v =>
              match v with
              | VMap m =>
                  (match rest with
                   | [] =>
                       (match lookupA m f with
                        | none => some (VStr invalidFieldStr)
                        | some x => some x)
                   | _ :: _ =>
                       (match lookupA m f with
                        | none => some (VStr invalidFieldStr)
                        | some x => getFieldChainValueFast (some x) rest))
              | _ => chainLoop v (f :: rest)

/-!
## Default value rendering (`formatValFast`, `%v`, verb application)
-/

/-- Boolean lexicographic order on strings, used because `fmt` prints map
keys in sorted order. -/
def strLe : Str → Str → Bool
  | [], _ => true
  | _ :: _, [] => false
  | a :: as2, b :: bs => if a = b then strLe as2 bs else decide (a.toNat ≤ b.toNat)

/-- Insertion step for sorting map entries by key. -/
def insertByKey (p : Str × Value) : List (Str × Value) → List (Str × Value)
  | [] => [p]
  | q :: rest => if strLe p.1 q.1 then p :: q :: rest else q :: insertByKey p rest

/-- Sort map entries by key (the order `fmt` prints them in). -/
def sortByKey : List (Str × Value) → List (Str × Value)
  | [] => []
  | p :: rest => insertByKey p (sortByKey rest)

/-- Join with single spaces. -/
def joinSpace (xs : List Str) : Str := List.intercalate [' '] xs

/-- Model of `fmt` `%v` on the value fragment: strings verbatim, integers in
decimal, `true`/`false`, slices as `[e1 e2]`, maps as `map[k1:v1 k2:v2]` with
sorted keys, structs as `{v1 v2}`, nil pointers as `<nil>`, non-nil pointers
as `&` followed by the pointee. -/
def goFmtV : Nat → Value → Str
  | 0, _ => []
  | fuel + 1, v =>
      match v with
      | VStr s => s
      | VInt i => intToDec i
      | VBool b => if b then sl (r"true") else sl (r"false")
      | VSeq xs => '[' :: (joinSpace (xs.map (goFmtV fuel)) ++ [']'])
      | VMap m =>
          sl (r"map[") ++
            joinSpace ((sortByKey m).map (fun p => p.1 ++ ':' :: goFmtV fuel p.2)) ++ [']']
      | VStruct _ flds => '{' :: (joinSpace (flds.map (fun p => goFmtV fuel p.2)) ++ ['}'])
      | VPtr none => nilStr
      | VPtrNil _ => nilStr
      | VPtr (some w) => '&' :: goFmtV fuel w

/-- Model of `fmt` `%+v`: like `%v` but struct fields print as
`Name:value`. -/
def goFmtPlusV : Nat → Value → Str
  | 0, _ => []
  | fuel + 1, v =>
      match v with
      | VStruct _ flds =>
          '{' :: (joinSpace (flds.map (fun p => p.1 ++ ':' :: goFmtPlusV fuel p.2)) ++ ['}'])
      | VSeq xs => '[' :: (joinSpace (xs.map (goFmtPlusV fuel)) ++ [']'])
      | VMap m =>
          sl (r"map[") ++
            joinSpace ((sortByKey m).map (fun p => p.1 ++ ':' :: goFmtPlusV fuel p.2)) ++ [']']
      | VPtr (some w) => '&' :: goFmtPlusV fuel w
      | w => goFmtV (fuel + 1) w

/-- Hex encoding of a string under `%x` (ASCII fragment: two lowercase hex
digits per character). -/
def hexBytes (s : Str) : Str :=
  s.foldr (fun c acc => natToBase 16 c.toNat ++ acc) []

/-- Abstraction of the `%!verb(...)` error text `fmt` prints when a verb does
not apply to a value; its exact shape is not relied on by any claim. -/
def badVerb (verb : Str) (v : Value) : Str :=
  '%' :: '!' :: (verb.drop 1 ++ '(' :: (goFmtV shapeFuel v ++ [')']))

/-- Model of `fmt.Fprintf(sb, verb, val)` for the verbs the placeholder spec
conversion can produce, on the modelled value fragment. -/
def goFmtApply (verb : Str) (val : Option Value) : Str :=
  match val with
  | none => if verb = sl (r"%v") ∨ verb = sl (r"%+v") then nilStr else '%' :: '!' :: verb.drop 1
  | some v =>
      if verb = sl (r"%v") then goFmtV shapeFuel v
      else if verb = sl (r"%+v") then goFmtPlusV shapeFuel v
      else if verb = sl (r"%d") then (match v with | VInt i => intToDec i | _ => badVerb verb v)
      else if verb = sl (r"%b") then (match v with | VInt i => intToBase 2 i | _ => badVerb verb v)
      else if verb = sl (r"%o") then (match v with | VInt i => intToBase 8 i | _ => badVerb verb v)
      else if verb = sl (r"%x") then
        (match v with
         | VInt i => intToBase 16 i
         | VStr s => hexBytes s
         | _ => badVerb verb v)
      else if verb = sl (r"%X") then
        (match v with
         | VInt i => upStr (intToBase 16 i)
         | VStr s => upStr (hexBytes s)
         | _ => badVerb verb v)
      else if verb = sl (r"%s") then (match v with | VStr s => s | _ => badVerb verb v)
      else badVerb verb v

/-- `formatValFast` (fstr.go): default rendering of a value; a nil interface
prints the `<no value>` sentinel; a struct without a `String()` method prints
its string-typed `Name` field when it has one, else `%v`.  Floats, Stringers
and errors are outside the modelled fragment. -/
def formatValFast : Option Value → Str
  | none => noValueStr
  | some v =>
      match v with
      | VStr s => s
      | VInt i => intToDec i
      | VBool b => if b then sl (r"true") else sl (r"false")
      | VStruct n flds =>
          (match lookupA flds (sl (r"Name")) with
           | some (VStr s) => s
           | _ => goFmtV shapeFuel (VStruct n flds))
      | w => goFmtV shapeFuel w

/-- `placeholderSpecToPrintf` (fstr.go): map a placeholder spec to a Go `fmt`
verb string. -/
def placeholderSpecToPrintf (sp : Str) : Str :=
  if sp = [] then sl (r"%v")
  else if sp = sl (r"?") then sl (r"%+v")
  else '%' :: sp

/-- `convertSpecToFmtVerb` (cached source part): the identical switch,
inlined into placeholder parsing there. -/
def convertSpecToFmtVerb (sp : Str) : Str := placeholderSpecToPrintf sp

/-!
## The `Sprintf` render loop (fstr.go)
-/

/-- `getArgOrNoValue` (fstr.go): the argument at `idx`, or the `<no value>`
sentinel string when out of range (parsed indices are never negative). -/
def getArgOrNoValue (idx : Nat) (args : List (Option Value)) : Option Value :=
  match args.get? idx with
  | some a => a
  | none => some (VStr noValueStr)

/-- Resolve the value for one placeholder exactly as the `switch` in
`Sprintf` does: auto placeholders consume the auto counter; positional ones
index `args` (with optional field chain); named ones resolve their chain
against `args[0]`.  `none` propagates a resolver panic. -/
def resolveVal1 (ph : Ph) (autoIdx : Nat) (args : List (Option Value)) :
    Option (Option Value × Nat) :=
  if ph.posIdx = none ∧ ph.fieldChain = [] then
    some (getArgOrNoValue autoIdx args, autoIdx + 1)
  else
    match ph.posIdx with
    | some idx =>
        if ph.fieldChain = [] then some (getArgOrNoValue idx args, autoIdx)
        else
          (match getFieldChainValueFast (getArgOrNoValue idx args) ph.fieldChain with
           | none => none
           | some v => some (some v, autoIdx))
    | none =>
        if args.length > 0 then
          (match getFieldChainValueFast (args.headD none) ph.fieldChain with
           | none => none
           | some v => some (some v, autoIdx))
        else some (some (VStr noValueStr), autoIdx)

/-- The stitching loop of `Sprintf`: before placeholder `i` the segment at
index `i` is written (when present); after the loop the single segment at
index `len(placeholders)` is written (when present).  The default (empty
spec) path prints a string argument directly and everything else through
`formatValFast`; a non-empty spec goes through the `fmt` verb conversion. -/
def render1Aux : List Str → List Ph → Nat → List (Option Value) → Option Str
  | segs, [], _, _ => some (segs.headD [])
  | segs, ph :: phs, autoIdx, args =>
      match resolveVal1 ph autoIdx args with
      | none => none
      | some (val, auto2) =>
          match render1Aux (segs.drop 1) phs auto2 args with
          | none => none
          | some restStr =>
              some (segs.headD [] ++
                (if ph.spec = [] then formatValFast val
                 else goFmtApply (placeholderSpecToPrintf ph.spec) val) ++ restStr)

/-- `strings.ContainsAny(format, "{}")`. -/
def hasBraces (format : Str) : Bool :=
  format.any (fun c => c = '{' || c = '}')

/-- `Sprintf` (fstr.go): empty format fast path, brace-free fast path, then
parse and render.  `none` models a Go panic. -/
def Sprintf1 (format : Str) (args : List (Option Value)) : Option Str :=
  if format = [] then some []
  else if hasBraces format then
    (match parseFormatFast format with
     | (segs, phs) => render1Aux segs phs 0 args)
  else some format

/-!
## The cached byte-scanner variant (unnamed source part)

The cached `Sprintf` keeps a global `formatCache : sync.Map` from format
strings to `parsedResult{segments, placeholders}`; placeholders there carry
the precomputed `GoFmtVerb`.  The cache is modelled as an explicit
association list threaded through the calls; `insertAssoc` models a map
store (overwrite on an existing key).
-/

/-- `placeholder` of the cached source part: the spec is precomputed into a
Go `fmt` verb at parse time. -/
structure Ph3 where
  posIdx : Option Nat
  fieldChain : List Str
  goFmtVerb : Str
deriving DecidableEq, Repr

/-- The inline verb conversion of the cached part's `parsePlaceholderFast`. -/
def toPh3 (ph : Ph) : Ph3 :=
  { posIdx := ph.posIdx, fieldChain := ph.fieldChain
    goFmtVerb := convertSpecToFmtVerb ph.spec }

/-- `parsedResult` of the cached source part. -/
abbrev ParsedResult3 := List Str × List Ph3

/-- The cached part's scanner: the same `parseFormatFast` loop, with the
spec→verb conversion done during placeholder parsing. -/
def parseFormatFast3 (format : Str) : ParsedResult3 :=
  match parseFormatFast format with
  | (segs, phs) => (segs, phs.map toPh3)

/-- Map store: overwrite an existing key, otherwise add the entry. -/
def insertAssoc {β : Type} : List (Str × β) → Str → β → List (Str × β)
  | [], k, v => [(k, v)]
  | (k2, v2) :: rest, k, v =>
      if k2 = k then (k, v) :: rest else (k2, v2) :: insertAssoc rest k v

/-- The global `formatCache` as explicit state. -/
abbrev Cache3 := List (Str × ParsedResult3)

/-- `parseFormatAndCache`: parse, then store the copied result in the
cache. -/
def parseFormatAndCacheS (σ : Cache3) (format : Str) : ParsedResult3 × Cache3 :=
  let pr := parseFormatFast3 format
  (pr, insertAssoc σ format pr)

/-- The render loop `renderSprintf` of the cached part: identical stitching
to `Sprintf`, but the precomputed verb selects between the fast default path
(`"%v"`) and `fmt.Fprintf`. -/
def render3Aux : List Str → List Ph3 → Nat → List (Option Value) → Option Str
  | segs, [], _, _ => some (segs.headD [])
  | segs, ph :: phs, autoIdx, args =>
      match resolveVal1 { posIdx := ph.posIdx, fieldChain := ph.fieldChain, spec := [] }
          autoIdx args with
      | none => none
      | some (val, auto2) =>
          match render3Aux (segs.drop 1) phs auto2 args with
          | none => none
          | some restStr =>
              some (segs.headD [] ++
                (if ph.goFmtVerb = sl (r"%v") then formatValFast val
                 else goFmtApply ph.goFmtVerb val) ++ restStr)

/-- `renderSprintf` on a parsed result. -/
def renderSprintf (pr : ParsedResult3) (args : List (Option Value)) : Option Str :=
  render3Aux pr.1 pr.2 0 args

/-- The cached `Sprintf`: fast paths, then cache lookup, parsing and storing
on a miss, and rendering from the (cached or fresh) parse result. -/
def sprintf3S (σ : Cache3) (format : Str) (args : List (Option Value)) :
    Option Str × Cache3 :=
  if format = [] then (some [], σ)
  else if hasBraces format then
    (match lookupA σ format with
     | some pr => (renderSprintf pr args, σ)
     | none =>
         match parseFormatAndCacheS σ format with
         | (pr, σ2) => (renderSprintf pr args, σ2))
  else (some format, σ)

/-- A fresh, uncached parse-and-render with the same fast paths: the
reference behaviour the cache must be transparent against. -/
def uncached3 (format : Str) (args : List (Option Value)) : Option Str :=
  if format = [] then some []
  else if hasBraces format then
    renderSprintf (parseFormatFast3 format) args
  else some format

/-- Run a sequence of cached render calls, collecting outputs and threading
the cache. -/
def runCalls3 (σ : Cache3) : List (Str × List (Option Value)) → List (Option Str) × Cache3
  | [] => ([], σ)
  | (f, a) :: rest =>
      match sprintf3S σ f a with
      | (o, σ2) =>
          match runCalls3 σ2 rest with
          | (os, σ3) => (o :: os, σ3)

/-- Cache well-formedness: every entry is the parse of its key.  Every state
reachable from the empty cache satisfies this, because only
`parseFormatAndCache` stores entries. -/
def WFCache3 (σ : Cache3) : Prop :=
  ∀ p ∈ σ, p.2 = parseFormatFast3 p.1

/-!
## Regex-driven pipeline: format specifier and placeholder grammar

These model the `parse` / `parsePlaceholder` / `parseFormatSpecifier`
functions (the regex-based parser source) by hand-rolled scanners with
exactly the leftmost-match semantics of the regexes used there.
-/

/-- `FormatSpecifier` (fstr.go).  `Fill` is a Go `rune` whose zero value
marks "no fill"; `Width`/`Precision` are Go `int`s.  The Go `Type` field is
called `TyTag` here because `Type` is reserved in Lean. -/
structure FormatSpecifier where
  Width : Int := 0
  Precision : Int := 0
  Alignment : Str := []
  Fill : Char := Char.ofNat 0
  TyTag : Str := []
  Alternate : Bool := false
  Sign : Str := []
  ZeroPad : Bool := false
deriving DecidableEq, Repr

/-- Alignment characters `<`, `>`, `^`. -/
def isAlignChar (c : Char) : Bool := c = '<' || c = '>' || c = '^'

/-- `strings.SplitN(s, ".", 2)`: the part before the first dot and,
when a dot exists, the rest after it. -/
def splitOnFirstDot (s : Str) : Str × Option Str :=
  match s.findIdx? (fun c => c = '.') with
  | some i => (s.take i, some (s.drop (i + 1)))
  | none => (s, none)

/--
`parseFormatSpecifier` (regex parser source): consume fill+alignment (or
alignment alone), sign, `#`, `0`, then read width and precision from the
remaining digits split on `.` (ignoring unparseable numbers), and take the
last remaining character as the type tag.  Note the source computes the type
tag from the remaining spec *including* the width/precision digits, so a
trailing digit becomes the tag.
-/
def parseFormatSpecifier (spec0 : Str) : FormatSpecifier :=
  if spec0 = [] then {}
  else
    let fas : Char × Str × Str :=
      match spec0 with
      | a :: b :: rest =>
          if isAlignChar b then (a, [b], rest)
          else if isAlignChar a then (Char.ofNat 0, [a], b :: rest)
          else (Char.ofNat 0, [], spec0)
      | [a] => if isAlignChar a then (Char.ofNat 0, [a], []) else (Char.ofNat 0, [], spec0)
      | [] => (Char.ofNat 0, [], spec0)
    let fill := fas.1
    let align := fas.2.1
    let s1 := fas.2.2
    let ss : Str × Str :=
      match s1 with
      | c :: rest => if c = '+' ∨ c = '-' ∨ c = ' ' then ([c], rest) else ([], s1)
      | [] => ([], s1)
    let sign := ss.1
    let s2 := ss.2
    let alt3 : Bool × Str := match s2 with | '#' :: rest => (true, rest) | _ => (false, s2)
    let zp4 : Bool × Str := match alt3.2 with | '0' :: rest => (true, rest) | _ => (false, alt3.2)
    let s4 := zp4.2
    let parts := splitOnFirstDot s4
    let width : Int := match goAtoi parts.1 with | some w => w | none => 0
    let precision : Int :=
      match parts.2 with
      | some p => (match goAtoi p with | some pr => pr | none => 0)
      | none => 0
    let ty : Str := match s4.getLast? with | some c => [c] | none => []
    { Width := width, Precision := precision, Alignment := align, Fill := fill,
      TyTag := ty, Alternate := alt3.1, Sign := sign, ZeroPad := zp4.1 }

/-- `placeholder` of the regex parser source: named or positional reference
(`position = -1` for named), parsed specifier, color, conditional triple and
method name. -/
structure Ph2 where
  raw : Str := []
  name : Str := []
  position : Int := -1
  specifier : FormatSpecifier := {}
  color : Str := []
  condition : Str := []
  trueVal : Str := []
  falseVal : Str := []
  method : Str := []
deriving DecidableEq, Repr

/-- Does `pat` occur as a contiguous substring (Go `strings.Contains`)? -/
def hasSubstr (pat : Str) : Str → Bool
  | [] => decide (pat = [])
  | c :: rest => pat.isPrefixOf (c :: rest) || hasSubstr pat rest

/-- Index of the first occurrence of `pat` (Go `strings.Index`). -/
def findSubIdx (pat : Str) : Str → Option Nat
  | [] => if pat = [] then some 0 else none
  | c :: rest =>
      if pat.isPrefixOf (c :: rest) then some 0
      else (findSubIdx pat rest).map (· + 1)

/-- Go `strings.TrimSuffix`. -/
def trimSuffixStr (s pat : Str) : Str :=
  if pat.isSuffixOf s then s.take (s.length - pat.length) else s

/-- Go `strings.TrimSpace` (ASCII whitespace fragment). -/
def trimSpace (s : Str) : Str :=
  ((s.dropWhile Char.isWhitespace).reverse.dropWhile Char.isWhitespace).reverse

/-- Leftmost match of the unanchored `colorRegex` `\|([a-zA-Z0-9_]+)`: the
word run after the first `|` that is followed by at least one word
character. -/
def findColorRun : Str → Option Str
  | [] => none
  | '|' :: rest =>
      let run := rest.takeWhile isWordChar
      if run = [] then findColorRun rest else some run
  | _ :: rest => findColorRun rest

/-- Leftmost match of the unanchored `condRegex`
`\?([^(:]+)\(([^)]*)\):(.*)`: after a `?`, a non-empty run free of `(` and
`:`, then a parenthesised run free of `)`, then `:`, then the rest.  Returns
the three capture groups. -/
def findCondMatch : Str → Option (Str × Str × Str)
  | [] => none
  | '?' :: rest =>
      (let t := rest.takeWhile (fun c => ¬(c = '(' ∨ c = ':'))
       match t, rest.drop t.length with
       | _ :: _, '(' :: r2 =>
           (let u := r2.takeWhile (fun c => c ≠ ')')
            match r2.drop u.length with
            | ')' :: ':' :: r4 => some (t, u, r4)
            | _ => findCondMatch rest)
       | _, _ => findCondMatch rest)
  | _ :: rest => findCondMatch rest

/--
`parsePlaceholder` (regex parser source): take the leading word run as name
or (when all digits) position; then the anchored `specRegex` `^:([^|?]*)`;
then the unanchored color and conditional regexes.  After an unanchored
match the source drops `len(match)` characters from the *front* of the
remaining content, which is faithful only when the match starts at the
front — the model reproduces that behaviour.
-/
def parsePlaceholder (content : Str) : Ph2 :=
  let nameMatch := content.takeWhile isWordChar
  let c1 := content.drop nameMatch.length
  let np : Str × Int :=
    if nameMatch = [] then ([], -1)
    else
      match goAtoi nameMatch with
      | some p => ([], p)
      | none => (nameMatch, -1)
  let sp2 : FormatSpecifier × Str :=
    match c1 with
    | ':' :: rest =>
        (let sp := rest.takeWhile (fun c => ¬(c = '|' ∨ c = '?'))
         (parseFormatSpecifier sp, c1.drop (1 + sp.length)))
    | _ => ({}, c1)
  let c2 := sp2.2
  let col3 : Str × Str :=
    match findColorRun c2 with
    | some run => (run, c2.drop (run.length + 1))
    | none => ([], c2)
  let cnd : Str × Str × Str :=
    match findCondMatch col3.2 with
    | some (t, u, r4) => (trimSpace t, trimSpace u, trimSpace r4)
    | none => ([], [], [])
  let nameFinal : Str × Str :=
    if hasSubstr (sl (r"()")) np.1 then
      (trimSuffixStr np.1 (sl (r"()")), trimSuffixStr np.1 (sl (r"()")))
    else (np.1, [])
  { name := nameFinal.1, position := np.2, specifier := sp2.1, color := col3.1,
    condition := cnd.1, trueVal := cnd.2.1, falseVal := cnd.2.2,
    method := nameFinal.2 }

/-!
## The regex `parse`: escape replacement, match finding, literal slicing

`parse` first rewrites `{{`/`}}` into the sentinels `\x00`/`\x01`, finds all
matches of `\{([^{}]*)\}` on the rewritten string, and slices literals from
the rewritten string but placeholder contents from the *original* string
using match indices of the rewritten one (the source's index-base mixup is
preserved).
-/

/-- Leftmost non-overlapping replacement of `{{` and `}}` by `\x00` and
`\x01` (`escapedBraceRegex.ReplaceAllStringFunc`). -/
def escapeReplace : Str → Str
  | '{' :: '{' :: rest => Char.ofNat 0 :: escapeReplace rest
  | '}' :: '}' :: rest => Char.ofNat 1 :: escapeReplace rest
  | c :: rest => c :: escapeReplace rest
  | [] => []

/-- Restore the sentinels to literal braces (`restoreEscapedBraces`). -/
def restoreEscapedBraces (s : Str) : Str :=
  s.map (fun c => if c = Char.ofNat 0 then '{' else if c = Char.ofNat 1 then '}' else c)

/-- Index and kind of the first brace: `true` for `}`. -/
def findBraceIdx : Str → Option (Nat × Bool)
  | [] => none
  | '}' :: _ => some (0, true)
  | '{' :: _ => some (0, false)
  | _ :: rest =>
      match findBraceIdx rest with
      | some (j, b) => some (j + 1, b)
      | none => none

/-- All matches of `\{([^{}]*)\}` as (start, end) index pairs: at a `{`, the
first following brace decides — a `}` closes a match, another `{` becomes
the next candidate start.  Fuel strictly exceeds the input length; every
step consumes at least one character. -/
def findMatchesAux : Nat → Str → Nat → List (Nat × Nat)
  | 0, _, _ => []
  | _ + 1, [], _ => []
  | fuel + 1, '{' :: rest, i =>
      (match findBraceIdx rest with
       | none => []
       | some (j, true) =>
           (i, i + j + 2) :: findMatchesAux fuel (rest.drop (j + 1)) (i + j + 2)
       | some (j, false) => findMatchesAux fuel (rest.drop j) (i + 1 + j))
  | fuel + 1, _ :: rest, i => findMatchesAux fuel rest (i + 1)

/-- The match-processing loop of `parse`: literals are sliced from the
escaped string (restoring sentinel braces) and appended only when non-empty;
placeholder contents are sliced from the original string with the escaped
string's indices. -/
def parse2Loop (format escaped : Str) :
    List (Nat × Nat) → Nat → List Str × List Ph2
  | [], lastPos =>
      (if lastPos < escaped.length
       then [restoreEscapedBraces (escaped.drop lastPos)]
       else [], [])
  | (s, e) :: ms, lastPos =>
      let lits :=
        if s > lastPos
        then [restoreEscapedBraces ((escaped.drop lastPos).take (s - lastPos))]
        else []
      let content := (format.drop (s + 1)).take (e - 1 - (s + 1))
      let ph := { parsePlaceholder content with raw := (format.drop s).take (e - s) }
      match parse2Loop format escaped ms e with
      | (ls, ps) => (lits ++ ls, ph :: ps)

/-- `parse` (regex parser source). -/
def parse2 (format : Str) : List Str × List Ph2 :=
  let escaped := escapeReplace format
  parse2Loop format escaped (findMatchesAux (escaped.length + 1) escaped 0) 0

/-!
## Regex-variant rendering (format.go)
-/

/-- `formatString` (format.go): precision truncates, then width/alignment
pads with the fill character (space when the fill rune is zero); an invalid
alignment returns the string unchanged. -/
def formatString (s0 : Str) (spec : FormatSpecifier) : Str :=
  let s := if spec.Precision > 0 ∧ (s0.length : Int) > spec.Precision
           then s0.take spec.Precision.toNat else s0
  if spec.Width ≤ 0 then s
  else
    let padding : Int := spec.Width - (s.length : Int)
    if padding ≤ 0 then s
    else
      let fillChar := if spec.Fill = Char.ofNat 0 then ' ' else spec.Fill
      if spec.Alignment = ['<'] then s ++ List.replicate padding.toNat fillChar
      else if spec.Alignment = ['^'] then
        List.replicate (padding.toNat / 2) fillChar ++ s ++
          List.replicate (padding.toNat - padding.toNat / 2) fillChar
      else if spec.Alignment = ['>'] ∨ spec.Alignment = [] then
        List.replicate padding.toNat fillChar ++ s
      else s

/-- `formatInteger` (format.go): base conversion with optional alternate
prefix, sign for non-negative values, zero padding, then `formatString`. -/
def formatInteger (val : Int) (spec : FormatSpecifier) : Str :=
  let str0 :=
    if spec.TyTag = ['b'] then
      (let s := intToBase 2 val; if spec.Alternate then sl (r"0b") ++ s else s)
    else if spec.TyTag = ['o'] then
      (let s := intToBase 8 val; if spec.Alternate then sl (r"0o") ++ s else s)
    else if spec.TyTag = ['x'] then
      (let s := intToBase 16 val; if spec.Alternate then sl (r"0x") ++ s else s)
    else if spec.TyTag = ['X'] then
      (let s := upStr (intToBase 16 val); if spec.Alternate then sl (r"0X") ++ s else s)
    else intToDec val
  let str1 :=
    if 0 ≤ val then
      (if spec.Sign = ['+'] then '+' :: str0
       else if spec.Sign = [' '] then ' ' :: str0
       else str0)
    else str0
  if spec.ZeroPad ∧ spec.Width > (str1.length : Int) then
    List.replicate (spec.Width - (str1.length : Int)).toNat '0' ++ str1
  else formatString str1 spec

/-- `formatBool` (format.go): `y`/`Y` and `t`/`T` verb variants, then
`formatString`. -/
def formatBool (b : Bool) (spec : FormatSpecifier) : Str :=
  let str :=
    if spec.TyTag = ['y'] ∨ spec.TyTag = ['Y'] then
      (if b then (if spec.TyTag = ['Y'] then sl (r"YES") else sl (r"yes"))
       else (if spec.TyTag = ['Y'] then sl (r"NO") else sl (r"no")))
    else if spec.TyTag = ['t'] ∨ spec.TyTag = ['T'] then
      (if b then (if spec.TyTag = ['T'] then sl (r"TRUE") else sl (r"true"))
       else (if spec.TyTag = ['T'] then sl (r"FALSE") else sl (r"false")))
    else (if b then sl (r"true") else sl (r"false"))
  formatString str spec

/-- ANSI escape `ESC [ code m`. -/
def ansi (code : Str) : Str := Char.ofNat 27 :: '[' :: (code ++ ['m'])

/-- The color table of `applyColor` (format.go). -/
def colorCode (c : Str) : Option Str :=
  if c = sl (r"black") then some (ansi (sl (r"30")))
  else if c = sl (r"red") then some (ansi (sl (r"31")))
  else if c = sl (r"green") then some (ansi (sl (r"32")))
  else if c = sl (r"yellow") then some (ansi (sl (r"33")))
  else if c = sl (r"blue") then some (ansi (sl (r"34")))
  else if c = sl (r"magenta") then some (ansi (sl (r"35")))
  else if c = sl (r"cyan") then some (ansi (sl (r"36")))
  else if c = sl (r"white") then some (ansi (sl (r"37")))
  else if c = sl (r"reset") then some (ansi (sl (r"0")))
  else if c = sl (r"bright_black") then some (ansi (sl (r"90")))
  else if c = sl (r"bright_red") then some (ansi (sl (r"91")))
  else if c = sl (r"bright_green") then some (ansi (sl (r"92")))
  else if c = sl (r"bright_yellow") then some (ansi (sl (r"93")))
  else if c = sl (r"bright_blue") then some (ansi (sl (r"94")))
  else if c = sl (r"bright_magenta") then some (ansi (sl (r"95")))
  else if c = sl (r"bright_cyan") then some (ansi (sl (r"96")))
  else if c = sl (r"bright_white") then some (ansi (sl (r"97")))
  else none

/-- `applyColor` (format.go): wrap in the color code and a reset; unknown
colors are a no-op. -/
def applyColor (s col : Str) : Str :=
  match colorCode (lowStr col) with
  | some code => code ++ s ++ ansi (sl (r"0"))
  | none => s

/-- `isEmpty` (format.go) on the modelled fragment (floats excluded): nil,
empty string/slice/map, zero integer, nil pointer. -/
def isEmptyV : Option Value → Bool
  | none => true
  | some (VStr s) => decide (s = [])
  | some (VSeq xs) => decide (xs.length = 0)
  | some (VMap m) => decide (m.length = 0)
  | some (VInt i) => decide (i = 0)
  | some (VPtr none) => true
  | some (VPtrNil _) => true
  | some (VPtr (some _)) => false
  | some (VBool _) => false
  | some (VStruct _ _) => false

/-- `isTruthy` (format.go) on the modelled fragment. -/
def isTruthyV : Option Value → Bool
  | none => false
  | some (VBool b) => b
  | some (VStr s) => decide (s ≠ [])
  | some (VInt i) => decide (i ≠ 0)
  | some (VSeq xs) => decide (xs.length > 0)
  | some (VMap m) => decide (m.length > 0)
  | some (VPtr none) => false
  | some (VPtrNil _) => false
  | some (VPtr (some _)) => true
  | some (VStruct _ _) => true

/-- Byte-wise (ASCII fragment: codepoint-wise) string order, as Go compares
strings. -/
def strLt : Str → Str → Bool
  | [], [] => false
  | [], _ :: _ => true
  | _ :: _, [] => false
  | a :: as2, b :: bs => if a = b then strLt as2 bs else decide (a.toNat < b.toNat)

/-- `compareStrings` (format.go). -/
def compareStrings (a b : Str) (op : Str) : Bool :=
  if op = sl (r"==") then decide (a = b)
  else if op = sl (r"!=") then decide (a ≠ b)
  else if op = sl (r">") then strLt b a
  else if op = sl (r"<") then strLt a b
  else if op = sl (r">=") then ! strLt a b
  else if op = sl (r"<=") then ! strLt b a
  else false

/-- `compareNumbers` (format.go), on exact rationals: the modelled fragment
contains integer arguments and decimal literals, which `float64` represents
exactly at the magnitudes exercised. -/
def compareNumbersQ (a b : ℚ) (op : Str) : Bool :=
  if op = sl (r"==") then decide (a = b)
  else if op = sl (r"!=") then decide (a ≠ b)
  else if op = sl (r">") then decide (a > b)
  else if op = sl (r"<") then decide (a < b)
  else if op = sl (r">=") then decide (a ≥ b)
  else if op = sl (r"<=") then decide (a ≤ b)
  else false

/-- `compareBools` (format.go). -/
def compareBools (a b : Bool) (op : Str) : Bool :=
  if op = sl (r"==") then decide (a = b)
  else if op = sl (r"!=") then decide (a ≠ b)
  else false

/-- Unsigned decimal with optional fraction, as an exact rational. -/
def parseFloatCore (s : Str) : Option ℚ :=
  match splitOnFirstDot s with
  | (ip, none) =>
      if ip ≠ [] ∧ ip.all Char.isDigit then some (digitsToNat ip) else none
  | (ip, some fp) =>
      if (ip ≠ [] ∨ fp ≠ []) ∧ ip.all Char.isDigit ∧ fp.all Char.isDigit then
        some ((digitsToNat ip : ℚ) + (digitsToNat fp : ℚ) / ((10 : ℚ) ^ fp.length))
      else none

/-- Model of `strconv.ParseFloat` on plain signed decimal literals
(exponents, hex floats and inf/NaN are outside the modelled fragment;
rounding to `float64` is ignored since the modelled comparisons stay exact). -/
def parseFloatQ (s : Str) : Option ℚ :=
  match s with
  | '+' :: rest => parseFloatCore rest
  | '-' :: rest => (parseFloatCore rest).map Neg.neg
  | _ => parseFloatCore s

/-- `strconv.ParseBool`: the exact literal set Go accepts. -/
def parseBoolGo (s : Str) : Option Bool :=
  if s = sl (r"1") ∨ s = sl (r"t") ∨ s = sl (r"T") ∨ s = sl (r"true") ∨
     s = sl (r"TRUE") ∨ s = sl (r"True") then some true
  else if s = sl (r"0") ∨ s = sl (r"f") ∨ s = sl (r"F") ∨ s = sl (r"false") ∨
     s = sl (r"FALSE") ∨ s = sl (r"False") then some false
  else none

/-- `compareValues` (format.go) on the modelled fragment. -/
def compareValues (arg : Option Value) (value : Str) (op : Str) : Bool :=
  match arg with
  | some (VStr s) => compareStrings s value op
  | some (VInt i) =>
      (match parseFloatQ value with
       | some q => compareNumbersQ (i : ℚ) q op
       | none => false)
  | some (VBool b) =>
      (match parseBoolGo value with
       | some b2 => compareBools b b2 op
       | none => false)
  | _ => false

/-- The operator list of `evaluateComparison`, in source order. -/
def opsList : List Str :=
  [sl (r"=="), sl (r"!="), sl (r">="), sl (r"<="), sl (r">"), sl (r"<")]

/-- First operator (in list order) contained in the condition, with the
index of its first occurrence. -/
def pickOp : List Str → Str → Option (Str × Nat)
  | [], _ => none
  | o :: os, cond =>
      match findSubIdx o cond with
      | some i => some (o, i)
      | none => pickOp os cond

/-- `evaluateComparison` (format.go): split the condition at the first
occurrence of the first matching operator; an empty operator or value yields
false. -/
def evaluateComparison (cond : Str) (arg : Option Value) : Bool :=
  match pickOp opsList cond with
  | none => false
  | some (op, idx) =>
      let value := trimSpace (cond.drop (idx + op.length))
      if value = [] then false else compareValues arg value op

/-- The predicate dispatch inside `applyCondition` (format.go). -/
def evalCond (cond : Str) (arg : Option Value) : Bool :=
  if cond = sl (r"empty") then isEmptyV arg
  else if cond = sl (r"!empty") then ! isEmptyV arg
  else if cond = sl (r"true") then isTruthyV arg
  else if cond = sl (r"false") then ! isTruthyV arg
  else evaluateComparison cond arg

/-- `applyCondition` (format.go): the formatted string `s` is received but
never used; the predicate is evaluated on the raw `arg` and one of the two
branch literals is returned. -/
def applyCondition (s cond trueVal falseVal : Str) (arg : Option Value) : Str :=
  if evalCond cond arg then trueVal else falseVal

/-!
## Regex-variant resolver, registry and entry point
-/

/-- `getNestedValue` (cache.go): walk a dotted path; a
`map[string]interface{}` looks keys up (missing key → nil); anything else is
dereferenced one pointer step and must be a struct with the field present,
else nil.  `none` is Go `nil`. -/
def getNestedValue : Option Value → List Str → Option Value
  | data, [] => data
  | some (VMap m), key :: rest =>
      (match lookupA m key with
       | some v => getNestedValue (some v) rest
       | none => none)
  | some v, key :: rest =>
      (match (match v with | VPtr (some w) => w | w => w) with
       | VStruct _ flds =>
           (match lookupA flds key with
            | some fv => getNestedValue (some fv) rest
            | none => none)
       | _ => none)
  | none, _ :: _ => none

/-- Go runtime types of the modelled values, the keys of the custom
formatter registry. -/
inductive GoTy : Type where
  | gStr | gInt | gBool | gSeq | gMap | gPtr
  | gStruct : Str → GoTy
deriving DecidableEq, Repr

/-- `reflect.TypeOf` on the modelled fragment. -/
def typeTagOf : Value → GoTy
  | VStr _ => GoTy.gStr
  | VInt _ => GoTy.gInt
  | VBool _ => GoTy.gBool
  | VSeq _ => GoTy.gSeq
  | VMap _ => GoTy.gMap
  | VStruct n _ => GoTy.gStruct n
  | VPtr _ => GoTy.gPtr
  | VPtrNil _ => GoTy.gPtr

/-- The custom-formatter registry (`formatters` in formatters.go), as a
fixed lookup function. -/
abbrev Registry := GoTy → Option (Value → FormatSpecifier → Str)

/-- The empty registry (no custom formatters registered for the modelled
types; the built-in `time.Time` formatter is outside the fragment). -/
def emptyRegistry : Registry := fun _ => none

/-- `formatArg` (format.go): nil → `<nil>`; a registered formatter wins;
otherwise strings, integers and booleans use their formatters and everything
else prints as `%v`.  Floats are outside the modelled fragment. -/
def formatArg (ρ : Registry) (arg : Option Value) (ph : Ph2) : Str :=
  match arg with
  | none => nilStr
  | some v =>
      match ρ (typeTagOf v) with
      | some f => f v ph.specifier
      | none =>
          match v with
          | VStr s => formatString s ph.specifier
          | VInt i => formatInteger i ph.specifier
          | VBool b => formatBool b ph.specifier
          | w => goFmtV shapeFuel w

/-- `FormatStruct` (formatters.go) on the modelled fragment: all fields are
exported, untagged and non-embedded, so the struct's fields become the named
argument map unchanged. -/
def FormatStruct (flds : List (Str × Value)) : List (Str × Value) := flds

/-- The `parsedFormat` record cached by `getParsedFormat` (cache.go). -/
structure ParsedFormat2 where
  literals : List Str
  placeholders : List Ph2
  accessPaths : List (Str × List Str)
deriving DecidableEq, Repr

/-- The access-path map built in `getParsedFormat`: dotted names of the
placeholders (note the name grammar admits no dots, so this map is always
empty in practice). -/
def buildAccessPaths (phs : List Ph2) : List (Str × List Str) :=
  phs.foldl
    (fun m ph =>
      if ph.name ≠ [] ∧ (splitOnChar '.' ph.name).length > 1
      then insertAssoc m ph.name (splitOnChar '.' ph.name)
      else m) []

/-- A fresh (uncached) parse into a `parsedFormat`. -/
def freshPF2 (format : Str) : ParsedFormat2 :=
  match parse2 format with
  | (lits, phs) => ⟨lits, phs, buildAccessPaths phs⟩

/-- The global regex-variant cache as explicit state. -/
abbrev Cache2 := List (Str × ParsedFormat2)

/-- `getParsedFormat` (cache.go): return the cached entry or parse, build
access paths and store. -/
def getParsedFormat2S (σ : Cache2) (format : Str) : ParsedFormat2 × Cache2 :=
  match lookupA σ format with
  | some pf => (pf, σ)
  | none =>
      let pf := freshPF2 format
      (pf, insertAssoc σ format pf)

/-- Cache well-formedness for the regex-variant cache. -/
def WFCache2 (σ : Cache2) : Prop :=
  ∀ p ∈ σ, p.2 = freshPF2 p.1

/-- `maxCacheSize` (cache.go). -/
def maxCacheSize : Nat := 1000

/-- `int(float64(maxCacheSize) * cleanupRatio)` with `cleanupRatio = 0.5`. -/
def cleanupNewSize : Nat := 500

/-- `cleanup` (cache.go): when the entry count exceeds the ceiling, keep at
most `cleanupNewSize` entries (Go map iteration order is unspecified; the
model keeps the first ones in list order, which the specification declares
irrelevant).  Note that nothing in the repository ever calls this method. -/
def cleanup2 (σ : Cache2) : Cache2 :=
  if σ.length > maxCacheSize then σ.take cleanupNewSize else σ

/-- Run `getParsedFormat` over a sequence of format strings, threading the
cache. -/
def runGetParsed (σ : Cache2) (fs : List Str) : Cache2 :=
  fs.foldl (fun σ2 f => (getParsedFormat2S σ2 f).2) σ

/-- One placeholder chunk of the `F` main loop: nil argument → `<nil>`;
otherwise nested access (when an access path exists for the name), then
`formatArg`, color and condition — the condition receiving the raw
(post-access) argument, not the formatted text. -/
def renderChunk2 (ρ : Registry) (pf : ParsedFormat2) (ph : Ph2) (arg0 : Option Value) : Str :=
  match arg0 with
  | none => nilStr
  | some a =>
      let arg : Option Value :=
        match lookupA pf.accessPaths ph.name with
        | some paths => getNestedValue (some a) paths
        | none => some a
      let f1 := formatArg ρ arg ph
      let f2 := if ph.color ≠ [] then applyColor f1 ph.color else f1
      if ph.condition ≠ [] then
        applyCondition f2 ph.condition ph.trueVal ph.falseVal arg
      else f2

/-- The main loop of `F`: iterate over the *literals*, rendering placeholder
`i` after literal `i` when it exists; an in-range explicit position indexes
the arguments, anything else consumes the auto counter when arguments
remain. -/
def f2Loop (ρ : Registry) (pf : ParsedFormat2) :
    List Str → List Ph2 → Nat → List (Option Value) → Str
  | [], _, _, _ => []
  | lit :: lits, [], argIdx, args => lit ++ f2Loop ρ pf lits [] argIdx args
  | lit :: lits, ph :: phs2, argIdx, args =>
      let st : Option Value × Nat :=
        if 0 ≤ ph.position ∧ ph.position < (args.length : Int) then
          ((args.get? ph.position.toNat).getD none, argIdx)
        else if argIdx < args.length then
          ((args.get? argIdx).getD none, argIdx + 1)
        else (none, argIdx)
      lit ++ renderChunk2 ρ pf ph st.1 ++ f2Loop ρ pf lits phs2 st.2 args

/-- `formatWithParsed` (fstr.go): named rendering against a map argument;
access paths resolve against the whole map, otherwise the name indexes the
map; nil → `<nil>`. -/
def formatWithParsedLoop (ρ : Registry) (pf : ParsedFormat2) :
    List Str → List Ph2 → List (Str × Value) → Str
  | [], _, _ => []
  | lit :: lits, [], m => lit ++ formatWithParsedLoop ρ pf lits [] m
  | lit :: lits, ph :: phs2, m =>
      let arg : Option Value :=
        match lookupA pf.accessPaths ph.name with
        | some paths => getNestedValue (some (VMap m)) paths
        | none => if ph.name ≠ [] then lookupA m ph.name else none
      let chunk :=
        match arg with
        | none => nilStr
        | some _ =>
            let f1 := formatArg ρ arg ph
            let f2 := if ph.color ≠ [] then applyColor f1 ph.color else f1
            if ph.condition ≠ [] then
              applyCondition f2 ph.condition ph.trueVal ph.falseVal arg
            else f2
      lit ++ chunk ++ formatWithParsedLoop ρ pf lits phs2 m

/-- `F` (fstr.go, regex variant): fetch or build the cached parse, divert a
single map or struct argument to `formatWithParsed`, and otherwise run the
main loop.  A single nil argument makes Go call `Kind()` on a nil
`reflect.Type`, which panics — modelled as `none`. -/
def F2 (ρ : Registry) (σ : Cache2) (format : Str) (args : List (Option Value)) :
    Option Str × Cache2 :=
  match getParsedFormat2S σ format with
  | (pf, σ2) =>
      if args.length = 1 then
        match args.headD none with
        | some (VMap m) =>
            (some (formatWithParsedLoop ρ pf pf.literals pf.placeholders m), σ2)
        | some (VStruct _ flds) =>
            (some (formatWithParsedLoop ρ pf pf.literals pf.placeholders
              (FormatStruct flds)), σ2)
        | some _ => (some (f2Loop ρ pf pf.literals pf.placeholders 0 args), σ2)
        | none => (none, σ2)
      else (some (f2Loop ρ pf pf.literals pf.placeholders 0 args), σ2)

/-!
## Specification-side helpers

These do not model repository code; they state the properties the claims
talk about.
-/

/-- Strip all leading occurrences of a character (the claim's
"trimming the padding fill character"). -/
def trimLeftChar (c : Char) (s : Str) : Str := s.dropWhile (fun x => x == c)

/-- Interleave literal segments and already-rendered placeholder values the
way the byte-scanner renderer stitches them: segment `i`, then value `i`,
and after the last value the single next segment when present. -/
def stitchAuto : List Str → List Str → Str
  | segs, [] => segs.headD []
  | segs, v :: vs => segs.headD [] ++ v ++ stitchAuto (segs.drop 1) vs

/-- Test fixture mirroring the `Person` struct of fstr_test.go with a nil
`Detail` pointer: `Detail` is a nil `*Detail` whose element type has fields
`City` and `Data`. -/
def nilDetailPerson : Value :=
  VStruct (sl (r"Person"))
    [(sl (r"Name"), VStr (sl (r"Felix"))),
     (sl (r"Email"), VStr (sl (r"felix@example.com"))),
     (sl (r"Age"), VInt 25),
     (sl (r"Detail"), VPtrNil [(sl (r"City"), VStr []), (sl (r"Data"), VMap [])])]

/-!
## C7 — conditional evaluation uses the raw value and picks one branch
-/

/--
C7: `applyCondition` never reads the already-formatted text (the result is
the same for any two formatted strings), and returns exactly one of the two
branch literals: the true literal when the predicate holds on the raw
resolved argument and the false literal otherwise.
-/
theorem c7_condition_raw_value (s s2 cond tv fv : Str) (arg : Option Value) :
    applyCondition s cond tv fv arg = applyCondition s2 cond tv fv arg ∧
    (applyCondition s cond tv fv arg = tv ∨ applyCondition s cond tv fv arg = fv) ∧
    (evalCond cond arg = true → applyCondition s cond tv fv arg = tv) ∧
    (evalCond cond arg = false → applyCondition s cond tv fv arg = fv) := by
  unfold applyCondition
  cases h : evalCond cond arg <;> simp [h]

/-- Witness for C7 at concrete inputs: the `empty` predicate on an empty
string selects the true literal. -/
theorem c7_condition_raw_value_witness :
    applyCondition (sl (r"formatted")) (sl (r"empty")) (sl (r"(a)")) (sl (r"(b)"))
      (some (VStr [])) = sl (r"(a)") :=
  (c7_condition_raw_value (sl (r"formatted")) (sl (r"other")) (sl (r"empty"))
    (sl (r"(a)")) (sl (r"(b)")) (some (VStr []))).2.2.1 (by decide)

/-!
## C9 — width/alignment round-trip
-/

/-- Dropping a leading block of the dropped character reduces to dropping on
the rest. -/
theorem dropWhile_replicate_append (n : Nat) (c : Char) (s : Str) :
    (List.replicate n c ++ s).dropWhile (fun x => x == c) =
      s.dropWhile (fun x => x == c) := by
  induction n with
  | zero => rfl
  | succ k ih => simpa [List.replicate_succ] using ih

/-- A list not containing the dropped character survives `dropWhile`. -/
theorem dropWhile_eq_self_of_not_mem {c : Char} {s : Str} (hc : c ∉ s) :
    s.dropWhile (fun x => x == c) = s := by
  cases s with
  | nil => rfl
  | cons a t =>
      have ha : ¬ (a = c) := fun h => hc (h ▸ List.mem_cons_self a t)
      simp [List.dropWhile_cons, ha]

/--
C9 counterexample: the claim quantifies over every fill character absent
from the string, but the Go `FormatSpecifier.Fill` rune uses the zero rune
as "no fill": requesting the zero rune as fill pads with spaces, which
left-trimming the zero rune does not remove.
-/
theorem c9_roundtrip_counterexample :
    (Char.ofNat 0) ∉ (['a'] : Str) ∧
    trimLeftChar (Char.ofNat 0)
      (formatString ['a'] { Width := 2, Alignment := ['>'], Fill := Char.ofNat 0 }) ≠
      (['a'] : Str) := by
  constructor
  · decide
  · decide

/--
C9 (amended): for every string `s`, width `W` and fill character `c` that
does not occur in `s` and is not the zero rune (which `formatString` treats
as "no fill" and replaces by a space), right-aligning `s` to width `W` with
fill `c` and trimming all leading occurrences of `c` recovers `s`.
-/
theorem c9_width_roundtrip (s : Str) (W : Int) (c : Char)
    (hc : c ∉ s) (h0 : c ≠ Char.ofNat 0) :
    trimLeftChar c (formatString s { Width := W, Alignment := ['>'], Fill := c }) = s := by
  unfold formatString trimLeftChar
  have hprec : ¬ ((0 : Int) > 0 ∧ (s.length : Int) > (0 : Int)) := by
    intro h
    exact absurd h.1 (by decide)
  simp only [hprec, if_false]
  by_cases hW : W ≤ 0
  · simp only [hW, if_true]
    exact dropWhile_eq_self_of_not_mem hc
  · simp only [hW, if_false]
    by_cases hp : W - (s.length : Int) ≤ 0
    · simp only [hp, if_true]
      exact dropWhile_eq_self_of_not_mem hc
    · simp only [hp, if_false, h0, if_neg h0]
      have h1 : ((['>'] : Str) = ['<']) = False := by decide
      have h2 : ((['>'] : Str) = ['^']) = False := by decide
      have h3 : ((['>'] : Str) = ['>']) = True := by decide
      simp only [h1, h2, h3, if_false, if_true, true_or]
      rw [dropWhile_replicate_append]
      exact dropWhile_eq_self_of_not_mem hc

/-- Witness for C9 at concrete inputs. -/
theorem c9_width_roundtrip_witness :
    trimLeftChar '0'
      (formatString (sl (r"ab")) { Width := 5, Alignment := ['>'], Fill := '0' }) =
      sl (r"ab") :=
  c9_width_roundtrip (sl (r"ab")) 5 '0' (by decide) (by decide)

/-!
## Scanner fuel irrelevance and step lemmas
-/

/-- Any two sufficient fuels give the scanner the same result. -/
theorem parseScanF_fuel (fuel1 : Nat) (s acc : Str) :
    ∀ fuel2, s.length < fuel1 → s.length < fuel2 →
    parseScanF fuel1 s acc = parseScanF fuel2 s acc := by
  induction fuel1, s, acc using parseScanF.induct with
  | case1 s1 a1 =>
      intro fuel2 h1 _
      exact absurd h1 (by omega)
  | case2 n a1 =>
      intro fuel2 h1 h2
      cases fuel2 with
      | zero => exact absurd h2 (by omega)
      | succ f2 => rfl
  | case3 fuel rest a1 ih =>
      intro fuel2 h1 h2
      cases fuel2 with
      | zero => exact absurd h2 (by omega)
      | succ f2 =>
          rw [parseScanF.eq_3, parseScanF.eq_3]
          exact ih f2 (by simp at h1; omega) (by simp at h2; omega)
  | case4 fuel rest a1 hne hfind ih =>
      intro fuel2 h1 h2
      cases fuel2 with
      | zero => exact absurd h2 (by omega)
      | succ f2 =>
          rw [parseScanF.eq_4 _ _ _ hne, parseScanF.eq_4 _ _ _ hne, hfind]
          rw [ih f2 (by simp at h1; omega) (by simp at h2; omega)]
  | case5 fuel rest a1 hne j hfind ih =>
      intro fuel2 h1 h2
      cases fuel2 with
      | zero => exact absurd h2 (by omega)
      | succ f2 =>
          rw [parseScanF.eq_4 _ _ _ hne, parseScanF.eq_4 _ _ _ hne, hfind]
          have hd : (List.drop (j + 1) rest).length ≤ rest.length := by
            simp [List.length_drop]
          have heq := ih f2 (by simp at h1; omega) (by simp at h2; omega)
          dsimp only
          rw [heq]
  | case6 fuel rest a1 ih =>
      intro fuel2 h1 h2
      cases fuel2 with
      | zero => exact absurd h2 (by omega)
      | succ f2 =>
          rw [parseScanF.eq_5, parseScanF.eq_5]
          exact ih f2 (by simp at h1; omega) (by simp at h2; omega)
  | case7 fuel rest a1 hne ih =>
      intro fuel2 h1 h2
      cases fuel2 with
      | zero => exact absurd h2 (by omega)
      | succ f2 =>
          rw [parseScanF.eq_6 _ _ _ hne, parseScanF.eq_6 _ _ _ hne]
          exact ih f2 (by simp at h1; omega) (by simp at h2; omega)
  | case8 fuel c rest a1 hg1 hg2 hg3 hg4 ih =>
      intro fuel2 h1 h2
      cases fuel2 with
      | zero => exact absurd h2 (by omega)
      | succ f2 =>
          rw [parseScanF.eq_7 _ _ _ _ hg1 hg2 hg3 hg4,
              parseScanF.eq_7 _ _ _ _ hg1 hg2 hg3 hg4]
          exact ih f2 (by simp at h1; omega) (by simp at h2; omega)

/-- The scanner consumes `{{` as a literal `{` before any placeholder
handling. -/
theorem parseScan_escaped_open (rest acc : Str) :
    parseScan ('{' :: '{' :: rest) acc = parseScan rest (acc ++ ['{']) := by
  unfold parseScan
  rw [show ('{' :: '{' :: rest).length + 1 = (rest.length + 1) + 2 by simp]
  rw [parseScanF.eq_3]
  exact parseScanF_fuel _ _ _ _ (by omega) (by omega)

/-- The scanner consumes `}}` as a literal `}`. -/
theorem parseScan_escaped_close (rest acc : Str) :
    parseScan ('}' :: '}' :: rest) acc = parseScan rest (acc ++ ['}']) := by
  unfold parseScan
  rw [show ('}' :: '}' :: rest).length + 1 = (rest.length + 1) + 2 by simp]
  rw [parseScanF.eq_5]
  exact parseScanF_fuel _ _ _ _ (by omega) (by omega)

/-- A character that is not a brace is appended to the current literal
segment. -/
theorem parseScan_cons_other (c : Char) (rest acc : Str)
    (hc1 : c ≠ '{') (hc2 : c ≠ '}') :
    parseScan (c :: rest) acc = parseScan rest (acc ++ [c]) := by
  unfold parseScan
  rw [show (c :: rest).length + 1 = (rest.length + 1) + 1 by simp]
  rw [parseScanF.eq_7 _ _ _ _ (fun _ hc _ => hc1 hc) (fun hc => hc1 hc)
    (fun _ hc _ => hc2 hc) (fun hc => hc2 hc)]

/-- The scanner on empty input flushes the pending segment when
non-empty. -/
theorem parseScan_nil (acc : Str) :
    parseScan [] acc = (if acc = [] then [] else [acc], []) := rfl

/-!
## C2 — brace escaping
-/

/--
C2: in the byte scanner the claim holds universally — `{{` appends the
literal `{` to the current segment and `}}` the literal `}`, in both cases
before any placeholder handling (the escape patterns are matched first, so
a doubled brace never opens or closes a placeholder) — and both pipelines
render the spec's two examples (`"{{}}"` to `"{}"`, `"a{{b}}c"` to
`"a{b}c"`).  But the regex-based `F` violates the universal rule: on
`"Data: {{{}}}"` the `}}` sentinel produced by the escape pre-replacement
falls inside the span of the placeholder match on the rewritten string, and
since literals are sliced only around matches it is dropped and never
restored, so `F` yields `"Data: {<nil>"` — no literal `}` at all — where
the repository's own `TestEdgeCases` ("json with braces") expects
`"Data: {}"`.  The byte scanner handles the same input's escapes correctly
(`"Data: {<no value>}"`).
-/
theorem c2_escaped_braces :
    (∀ rest acc : Str, parseScan ('{' :: '{' :: rest) acc = parseScan rest (acc ++ ['{'])) ∧
    (∀ rest acc : Str, parseScan ('}' :: '}' :: rest) acc = parseScan rest (acc ++ ['}'])) ∧
    Sprintf1 (sl (r"{{}}")) [] = some (sl (r"{}")) ∧
    Sprintf1 (sl (r"a{{b}}c")) [] = some (sl (r"a{b}c")) ∧
    (F2 emptyRegistry [] (sl (r"{{}}")) []).1 = some (sl (r"{}")) ∧
    (F2 emptyRegistry [] (sl (r"a{{b}}c")) []).1 = some (sl (r"a{b}c")) ∧
    Sprintf1 (sl (r"Data: {{{}}}")) [] = some (sl (r"Data: {<no value>}")) ∧
    (F2 emptyRegistry [] (sl (r"Data: {{{}}}")) []).1 = some (sl (r"Data: {<nil>")) ∧
    (F2 emptyRegistry [] (sl (r"Data: {{{}}}")) []).1 ≠ some (sl (r"Data: {}")) :=
  ⟨parseScan_escaped_open, parseScan_escaped_close,
   by decide, by decide, by decide, by decide, by decide, by decide, by decide⟩

/-!
## C4 — segment/placeholder counts
-/

/--
C4 evaluation at the failing inputs: the regex `parse` on
`"{} + {} = {}"` returns 2 literals for 3 placeholders (the empty leading
and trailing literals are dropped), where the claim — and the repository's
own `TestParse`, which expects `["", " + ", " = ", ""]` — require 4; the
byte scanner drops the empty trailing segment of `"{}"`, returning 1
segment for 1 placeholder instead of 2.
-/
theorem c4_segment_count_eval :
    (parse2 (sl (r"{} + {} = {}"))).1 = [sl (r" + "), sl (r" = ")] ∧
    (parse2 (sl (r"{} + {} = {}"))).2.length = 3 ∧
    (parseFormatFast (sl (r"{}"))).1.length = 1 ∧
    (parseFormatFast (sl (r"{}"))).2.length = 1 := by
  refine ⟨by decide, by decide, by decide, by decide⟩

/-!
## C5 — unclosed brace handling
-/

/--
C5 evaluation at the failing input: `Sprintf("Hello {")` returns
`"Hello "` — the unclosed `{` and everything after it are dropped, because
`parseFormatFast` flushes a segment before discovering there is no closing
brace, and the renderer emits only the segment at index
`len(placeholders)`.  The claim (and the comment in the source, "treat as
literal `{`") require `"Hello {"`.
-/
theorem c5_unclosed_brace_eval :
    Sprintf1 (sl (r"Hello {")) [] = some (sl (r"Hello ")) ∧
    Sprintf1 (sl (r"Hello {")) [] ≠ some (sl (r"Hello {")) ∧
    Sprintf1 (sl (r"a{bc")) [] = some (sl (r"a")) := by
  refine ⟨by decide, by decide, by decide⟩

/-!
## C8 — the parse cache is never cleaned on the render path
-/

/-- Storing a fresh key grows an association map by one entry. -/
theorem insertAssoc_length_of_fresh {β : Type} (σ : List (Str × β)) (f : Str) (v : β)
    (h : lookupA σ f = none) : (insertAssoc σ f v).length = σ.length + 1 := by
  induction σ with
  | nil => rfl
  | cons p rest ih =>
      unfold lookupA at h
      by_cases hk : p.1 = f
      · simp [hk] at h
      · simp only [insertAssoc, hk, if_false, List.length_cons]
        rw [ih (by simpa [hk] using h)]

/-- Storing one key does not affect lookups of a different key. -/
theorem lookupA_insertAssoc_ne {β : Type} (σ : List (Str × β)) (f g : Str) (v : β)
    (hne : g ≠ f) : lookupA (insertAssoc σ f v) g = lookupA σ g := by
  induction σ with
  | nil => simp [insertAssoc, lookupA, hne, Ne.symm hne]
  | cons p rest ih =>
      by_cases hk : p.1 = f
      · simp [insertAssoc, lookupA, hk, Ne.symm hne, hne]
      · simp only [insertAssoc, hk, if_false, lookupA]
        by_cases hg : p.1 = g
        · simp [hg]
        · simp [hg, ih]

/--
C8: on the render path, `getParsedFormat` re-parses correctly on a miss
but only ever grows the cache — a hit keeps the size, a miss adds one
entry, and a sequence of distinct fresh format strings grows the cache by
its length, beyond any ceiling; `cleanup` would shrink an over-full cache
but is never invoked by any code in the repository.
-/
theorem c8_cache_unbounded :
    (∀ (σ : Cache2) (f : Str), lookupA σ f = none →
        (getParsedFormat2S σ f).1 = freshPF2 f) ∧
    (∀ (σ : Cache2) (f : Str),
        ((getParsedFormat2S σ f).2).length =
          if (lookupA σ f).isSome then σ.length else σ.length + 1) ∧
    (∀ (fs : List Str) (σ : Cache2), fs.Nodup → (∀ f ∈ fs, lookupA σ f = none) →
        (runGetParsed σ fs).length = σ.length + fs.length) ∧
    (∀ σ : Cache2, σ.length > maxCacheSize → (cleanup2 σ).length ≤ cleanupNewSize) := by
  refine ⟨?_, ?_, ?_, ?_⟩
  · intro σ f h
    simp [getParsedFormat2S, h]
  · intro σ f
    unfold getParsedFormat2S
    cases h : lookupA σ f with
    | some pf => simp [h]
    | none => simp [h, insertAssoc_length_of_fresh σ f _ h]
  · intro fs
    induction fs with
    | nil => intro σ _ _; simp [runGetParsed]
    | cons f fs' ih =>
        intro σ hnd hfresh
        have hf : lookupA σ f = none := hfresh f (List.mem_cons_self f fs')
        have hstep : runGetParsed σ (f :: fs') =
            runGetParsed (insertAssoc σ f (freshPF2 f)) fs' := by
          simp [runGetParsed, getParsedFormat2S, hf]
        rw [hstep, ih (insertAssoc σ f (freshPF2 f)) hnd.of_cons]
        · rw [insertAssoc_length_of_fresh σ f _ hf]
          simp [List.length_cons]
          omega
        · intro g hg
          have hne : g ≠ f := by
            intro hgf
            exact (List.nodup_cons.mp hnd).1 (hgf ▸ hg)
          rw [lookupA_insertAssoc_ne σ f g _ hne]
          exact hfresh g (List.mem_cons_of_mem f hg)
  · intro σ h
    simp only [cleanup2, h, if_true]
    calc (σ.take cleanupNewSize).length ≤ cleanupNewSize := by
          simp [List.length_take]
      _ ≤ cleanupNewSize := le_refl _

/-- Witness for C8: 1001 pairwise-distinct format strings, rendered once
each from an empty cache, leave 1001 cached entries — above the
`maxCacheSize` ceiling of 1000. -/
theorem c8_cache_unbounded_witness :
    (runGetParsed []
        ((List.range (maxCacheSize + 1)).map (fun i => List.replicate i 'a'))).length
      = maxCacheSize + 1 ∧ maxCacheSize < maxCacheSize + 1 := by
  constructor
  · have hinj : Function.Injective (fun i => (List.replicate i 'a' : Str)) := by
      intro i j h
      simpa using congrArg List.length h
    have hnd : ((List.range (maxCacheSize + 1)).map
        (fun i => (List.replicate i 'a' : Str))).Nodup :=
      (List.nodup_range _).map hinj
    have h := c8_cache_unbounded.2.2.1
      ((List.range (maxCacheSize + 1)).map (fun i => List.replicate i 'a')) [] hnd
      (fun f _ => rfl)
    rw [h, List.length_map, List.length_range]
    rfl
  · omega

/-!
## C3 / C10 — cache transparency and determinism
-/

/-- Membership after a store: the stored pair or an original entry. -/
theorem mem_insertAssoc {β : Type} {k : Str} {v : β} :
    ∀ {σ : List (Str × β)} {p : Str × β},
      p ∈ insertAssoc σ k v → p = (k, v) ∨ p ∈ σ := by
  intro σ
  induction σ with
  | nil => intro p h; simpa [insertAssoc] using h
  | cons q rest ih =>
      intro p h
      by_cases hk : q.1 = k
      · simp only [insertAssoc, hk, if_true, List.mem_cons] at h
        rcases h with h | h
        · exact Or.inl (by simp [h])
        · exact Or.inr (List.mem_cons_of_mem q h)
      · simp only [insertAssoc, hk, if_false, List.mem_cons] at h
        rcases h with h | h
        · exact Or.inr (h ▸ List.mem_cons_self q rest)
        · rcases ih h with h2 | h2
          · exact Or.inl h2
          · exact Or.inr (List.mem_cons_of_mem q h2)

/-- In a cache whose entries all agree with a generator `g`, a successful
lookup returns `g` of the key. -/
theorem lookupA_eq_of_wf {β : Type} {σ : List (Str × β)} {g : Str → β}
    (h : ∀ p ∈ σ, p.2 = g p.1) :
    ∀ {f : Str} {v : β}, lookupA σ f = some v → v = g f := by
  induction σ with
  | nil => intro f v hl; simp [lookupA] at hl
  | cons q rest ih =>
      intro f v hl
      unfold lookupA at hl
      by_cases hk : q.1 = f
      · rw [if_pos hk] at hl
        subst hk
        rw [← Option.some.inj hl]
        exact h q (List.mem_cons_self q rest)
      · rw [if_neg hk] at hl
        exact ih (fun p hp => h p (List.mem_cons_of_mem q hp)) hl

/-- Storing `g`-agreeing entries preserves agreement with `g`. -/
theorem wf_insertAssoc {β : Type} {σ : List (Str × β)} {g : Str → β}
    (h : ∀ p ∈ σ, p.2 = g p.1) (f : Str) :
    ∀ p ∈ insertAssoc σ f (g f), p.2 = g p.1 := by
  intro p hp
  rcases mem_insertAssoc hp with h2 | h2
  · rw [h2]
  · exact h p h2

/-- A well-formed cache makes the cached `Sprintf` agree with an uncached
parse-and-render. -/
theorem sprintf3S_fst (σ : Cache3) (f : Str) (a : List (Option Value))
    (h : WFCache3 σ) : (sprintf3S σ f a).1 = uncached3 f a := by
  unfold sprintf3S uncached3
  by_cases h0 : f = []
  · simp [h0]
  · simp only [h0, if_false]
    by_cases hb : hasBraces f = true
    · simp only [hb, if_true]
      cases hl : lookupA σ f with
      | some pr =>
          have := lookupA_eq_of_wf h hl
          dsimp only
          rw [this]
      | none =>
          dsimp only
          simp [parseFormatAndCacheS]
    · simp only [hb, if_false]
      rfl

/-- Rendering preserves cache well-formedness. -/
theorem sprintf3S_snd_wf (σ : Cache3) (f : Str) (a : List (Option Value))
    (h : WFCache3 σ) : WFCache3 (sprintf3S σ f a).2 := by
  unfold sprintf3S
  by_cases h0 : f = []
  · simpa [h0] using h
  · simp only [h0, if_false]
    by_cases hb : hasBraces f = true
    · simp only [hb, if_true]
      cases hl : lookupA σ f with
      | some pr => exact h
      | none =>
          dsimp only
          simp only [parseFormatAndCacheS]
          exact wf_insertAssoc h f
    · simp only [hb, if_false]
      exact h

/-- A run of cached render calls from a well-formed cache produces exactly
the uncached outputs and preserves well-formedness. -/
theorem runCalls3_spec (calls : List (Str × List (Option Value))) :
    ∀ σ : Cache3, WFCache3 σ →
      (runCalls3 σ calls).1 = calls.map (fun c => uncached3 c.1 c.2) ∧
      WFCache3 (runCalls3 σ calls).2 := by
  induction calls with
  | nil => intro σ h; exact ⟨rfl, h⟩
  | cons c rest ih =>
      intro σ h
      have hfst := sprintf3S_fst σ c.1 c.2 h
      have hwf := sprintf3S_snd_wf σ c.1 c.2 h
      have hrec := ih (sprintf3S σ c.1 c.2).2 hwf
      simp only [runCalls3]
      rw [show (sprintf3S σ c.1 c.2) = ((sprintf3S σ c.1 c.2).1, (sprintf3S σ c.1 c.2).2)
        from rfl]
      simp only [List.map_cons]
      constructor
      · rw [show runCalls3 (sprintf3S σ c.1 c.2).2 rest =
            ((runCalls3 (sprintf3S σ c.1 c.2).2 rest).1,
             (runCalls3 (sprintf3S σ c.1 c.2).2 rest).2) from rfl]
        rw [hfst, hrec.1]
      · rw [show runCalls3 (sprintf3S σ c.1 c.2).2 rest =
            ((runCalls3 (sprintf3S σ c.1 c.2).2 rest).1,
             (runCalls3 (sprintf3S σ c.1 c.2).2 rest).2) from rfl]
        exact hrec.2

/-- On a well-formed cache, `getParsedFormat` returns the fresh parse and
preserves well-formedness. -/
theorem getParsedFormat2S_wf (σ2 : Cache2) (f : Str) (h : WFCache2 σ2) :
    (getParsedFormat2S σ2 f).1 = freshPF2 f ∧
    WFCache2 (getParsedFormat2S σ2 f).2 := by
  unfold getParsedFormat2S
  cases hl : lookupA σ2 f with
  | some pf =>
      have := lookupA_eq_of_wf h hl
      exact ⟨this, by simpa using h⟩
  | none =>
      refine ⟨rfl, ?_⟩
      exact wf_insertAssoc h f

/--
C3: starting from any well-formed cache state (the empty initial cache in
particular), a sequence of cached render calls returns exactly the outputs
of fresh uncached parse-and-renders, and leaves the cache well-formed; and
in the regex variant, `getParsedFormat` returns exactly the fresh parse of
the format string, preserving well-formedness.  The cache never alters
output.
-/
theorem c3_cache_transparency :
    (∀ (σ : Cache3) (calls : List (Str × List (Option Value))), WFCache3 σ →
        (runCalls3 σ calls).1 = calls.map (fun c => uncached3 c.1 c.2) ∧
        WFCache3 (runCalls3 σ calls).2) ∧
    (∀ (σ2 : Cache2) (f : Str), WFCache2 σ2 →
        (getParsedFormat2S σ2 f).1 = freshPF2 f ∧
        WFCache2 (getParsedFormat2S σ2 f).2) :=
  ⟨fun σ calls h => runCalls3_spec calls σ h,
   fun σ2 f h => getParsedFormat2S_wf σ2 f h⟩

/-- Witness for C3: two calls with the same format string, the second a
cache hit, both agree with the uncached renders. -/
theorem c3_cache_transparency_witness :
    (runCalls3 [] [(sl (r"Hi {}!"), [some (VInt 7)]), (sl (r"Hi {}!"), [some (VInt 8)])]).1 =
      [uncached3 (sl (r"Hi {}!")) [some (VInt 7)],
       uncached3 (sl (r"Hi {}!")) [some (VInt 8)]] :=
  (c3_cache_transparency.1 []
    [(sl (r"Hi {}!"), [some (VInt 7)]), (sl (r"Hi {}!"), [some (VInt 8)])]
    (fun p hp => absurd hp (List.not_mem_nil p))).1

/-- A run of `getParsedFormat` calls preserves cache well-formedness. -/
theorem runGetParsed_wf (fs : List Str) :
    ∀ σ : Cache2, WFCache2 σ → WFCache2 (runGetParsed σ fs) := by
  induction fs with
  | nil => intro σ h; exact h
  | cons f rest ih =>
      intro σ h
      simp only [runGetParsed, List.foldl_cons]
      exact ih _ ((getParsedFormat2S_wf σ f h).2)

/--
C10: with a fixed registry, rendering is a function of the format string
and the arguments alone — for the cached byte-scanner `Sprintf` and the
regex-based `F`, any two well-formed cache states (in particular, any two
states reached by any history of calls from the empty cache, which the last
two conjuncts show are well-formed) give identical output for the same
format string and arguments.
-/
theorem c10_render_deterministic :
    (∀ (σ1 σ2 : Cache3) (f : Str) (a : List (Option Value)),
        WFCache3 σ1 → WFCache3 σ2 →
        (sprintf3S σ1 f a).1 = (sprintf3S σ2 f a).1) ∧
    (∀ (ρ : Registry) (σ1 σ2 : Cache2) (f : Str) (a : List (Option Value)),
        WFCache2 σ1 → WFCache2 σ2 →
        (F2 ρ σ1 f a).1 = (F2 ρ σ2 f a).1) ∧
    (∀ (calls : List (Str × List (Option Value))) (σ : Cache3), WFCache3 σ →
        WFCache3 (runCalls3 σ calls).2) ∧
    (∀ (fs : List Str) (σ : Cache2), WFCache2 σ → WFCache2 (runGetParsed σ fs)) := by
  refine ⟨?_, ?_, ?_, runGetParsed_wf⟩
  · intro σ1 σ2 f a h1 h2
    rw [sprintf3S_fst σ1 f a h1, sprintf3S_fst σ2 f a h2]
  · intro ρ σ1 σ2 f a h1 h2
    have e1 := (getParsedFormat2S_wf σ1 f h1).1
    have e2 := (getParsedFormat2S_wf σ2 f h2).1
    unfold F2
    rcases hq1 : getParsedFormat2S σ1 f with ⟨pf1, s1⟩
    rcases hq2 : getParsedFormat2S σ2 f with ⟨pf2, s2⟩
    rw [hq1] at e1
    rw [hq2] at e2
    dsimp only at e1 e2 ⊢
    rw [e1, e2]
    by_cases hl : a.length = 1
    · simp only [hl, if_true]
      cases ha : a.headD none with
      | none => rfl
      | some v => cases v <;> rfl
    · simp only [hl, if_false]
  · intro calls σ h
    exact (runCalls3_spec calls σ h).2

/-- Witness for C10: the same call against the empty cache and against a
cache populated by a different earlier call (the format already cached)
yields the same output, in both cached pipelines. -/
theorem c10_render_deterministic_witness :
    (sprintf3S [] (sl (r"n={}")) [some (VInt 5)]).1 =
      (sprintf3S (runCalls3 [] [(sl (r"n={}"), [some (VInt 9)])]).2
        (sl (r"n={}")) [some (VInt 5)]).1 ∧
    (F2 emptyRegistry [] (sl (r"m={}")) [some (VInt 5), some (VInt 6)]).1 =
      (F2 emptyRegistry (runGetParsed [] [sl (r"m={}")])
        (sl (r"m={}")) [some (VInt 5), some (VInt 6)]).1 :=
  ⟨c10_render_deterministic.1 [] _ _ _
      (fun p hp => absurd hp (List.not_mem_nil p))
      (c10_render_deterministic.2.2.1 [(sl (r"n={}"), [some (VInt 9)])] []
        (fun p hp => absurd hp (List.not_mem_nil p))),
   c10_render_deterministic.2.1 emptyRegistry [] _ _ _
      (fun p hp => absurd hp (List.not_mem_nil p))
      (c10_render_deterministic.2.2.2 [sl (r"m={}")] []
        (fun p hp => absurd hp (List.not_mem_nil p)))⟩

/-!
## C6 — field-chain failure handling
-/

/--
C6: the byte-scanner resolver returns the `<invalid field>` sentinel and
short-circuits (for any continuation of the chain) on a nil base, a failing
pointer dereference, a missing map key, a missing struct field (when the
nested field-index cache also misses), a nil pointer stored in a struct
field, and an unsupported shape; but it is not panic-free: a field name
found only through the nested field-index cache is fetched with
`FieldByIndex`, which panics (modelled as `none`) when an intermediate
pointer-to-struct — here the nil `Detail` of `nilDetailPerson` — is nil, a
panic that reaches `Sprintf` itself.  The regex-variant resolver
`getNestedValue` never yields `<invalid field>` at all: it returns Go `nil`
(`none`) on a missing key, which the renderer prints as `<nil>`.
-/
theorem c6_field_chain_failures :
    (∀ fields : List Str,
        getFieldChainValueFast none fields = some (VStr invalidFieldStr)) ∧
    (∀ (v : Value) (f : Str) (rest : List Str), derefPtrs v = none →
        getFieldChainValueFast (some v) (f :: rest) = some (VStr invalidFieldStr)) ∧
    (∀ (m : List (Str × Value)) (f : Str) (rest : List Str), lookupA m f = none →
        getFieldChainValueFast (some (VMap m)) (f :: rest) = some (VStr invalidFieldStr)) ∧
    (∀ (n : Str) (flds : List (Str × Value)) (f : Str) (rest : List Str),
        lookupA flds f = none →
        lookupLastIdx (buildCacheV shapeFuel flds [] 0) f = none →
        getFieldChainValueFast (some (VStruct n flds)) (f :: rest) =
          some (VStr invalidFieldStr)) ∧
    (∀ (n : Str) (flds : List (Str × Value)) (f : Str) (rest : List Str),
        lookupA flds f = some (VPtr none) →
        getFieldChainValueFast (some (VStruct n flds)) (f :: rest) =
          some (VStr invalidFieldStr)) ∧
    (∀ (i : Int) (f : Str) (rest : List Str),
        getFieldChainValueFast (some (VInt i)) (f :: rest) =
          some (VStr invalidFieldStr)) ∧
    (∀ (m : List (Str × Value)) (k : Str) (rest : List Str), lookupA m k = none →
        getNestedValue (some (VMap m)) (k :: rest) = none) ∧
    getFieldChainValueFast (some nilDetailPerson) [sl (r"City")] = none ∧
    Sprintf1 (sl (r"{City}")) [some nilDetailPerson] = none ∧
    getNestedValue (some (VMap [])) [sl (r"x")] = none := by
  refine ⟨?_, ?_, ?_, ?_, ?_, ?_, ?_, rfl, by decide, rfl⟩
  · intro fields
    cases fields <;> rfl
  · intro v f rest h
    simp only [getFieldChainValueFast, h]
  · intro m f rest h
    cases rest with
    | nil => simp only [getFieldChainValueFast, derefPtrs, h]
    | cons g rest2 => simp only [getFieldChainValueFast, derefPtrs, h]
  · intro n flds f rest h1 h2
    simp only [getFieldChainValueFast, derefPtrs, chainLoop, h1, h2]
  · intro n flds f rest h1
    simp only [getFieldChainValueFast, derefPtrs, chainLoop, h1]
  · intro i f rest
    rfl
  · intro m k rest h
    simp only [getNestedValue, h]

/-- Witness for C6 at concrete inputs, one per hypothesis-bearing
conjunct. -/
theorem c6_field_chain_failures_witness :
    getFieldChainValueFast (some (VPtr none)) [sl (r"A"), sl (r"B")] =
      some (VStr invalidFieldStr) ∧
    getFieldChainValueFast (some (VMap [])) [sl (r"A"), sl (r"B")] =
      some (VStr invalidFieldStr) ∧
    getFieldChainValueFast (some (VStruct (sl (r"T")) [])) [sl (r"A")] =
      some (VStr invalidFieldStr) ∧
    getFieldChainValueFast
        (some (VStruct (sl (r"T")) [(sl (r"A"), VPtr none)])) [sl (r"A"), sl (r"B")] =
      some (VStr invalidFieldStr) ∧
    getNestedValue (some (VMap [(sl (r"k"), VInt 1)])) [sl (r"x")] = none :=
  ⟨c6_field_chain_failures.2.1 (VPtr none) (sl (r"A")) [sl (r"B")] rfl,
   c6_field_chain_failures.2.2.1 [] (sl (r"A")) [sl (r"B")] rfl,
   c6_field_chain_failures.2.2.2.1 (sl (r"T")) [] (sl (r"A")) [] rfl rfl,
   c6_field_chain_failures.2.2.2.2.1 (sl (r"T")) [(sl (r"A"), VPtr none)]
     (sl (r"A")) [sl (r"B")] rfl,
   c6_field_chain_failures.2.2.2.2.2.2.1 [(sl (r"k"), VInt 1)] (sl (r"x")) []
     rfl⟩

/-!
## C1 — auto placeholders
-/

/-- Out-of-range argument access yields the `<no value>` sentinel. -/
theorem getArgOrNoValue_oob (k : Nat) (args : List (Option Value))
    (h : args.length ≤ k) : getArgOrNoValue k args = some (VStr noValueStr) := by
  unfold getArgOrNoValue
  rw [List.get?_len_le h]

/-- On a list of auto placeholders, the render loop interleaves the
segments with the default renderings of the arguments taken in order,
starting at the current auto counter. -/
theorem render1Aux_auto (phs : List Ph) :
    ∀ (segs : List Str) (k : Nat) (args : List (Option Value)),
      (∀ ph ∈ phs, ph = { posIdx := none, fieldChain := [], spec := [] }) →
      render1Aux segs phs k args =
        some (stitchAuto segs ((List.range' k phs.length).map
          (fun i => formatValFast (getArgOrNoValue i args)))) := by
  induction phs with
  | nil => intro segs k args _; rfl
  | cons ph phs2 ih =>
      intro segs k args hall
      have hph := hall ph (List.mem_cons_self ph phs2)
      rw [hph]
      simp only [render1Aux, resolveVal1, and_self, if_pos, List.length_cons]
      rw [ih (segs.drop 1) (k + 1) args
        (fun q hq => hall q (List.mem_cons_of_mem ph hq))]
      simp [stitchAuto, List.range']

/-- A brace-free input is scanned into a single literal segment appended to
the pending one. -/
theorem parseScan_noBraces (f : Str) :
    ∀ acc : Str, hasBraces f = false →
      parseScan f acc = (if acc ++ f = [] then [] else [acc ++ f], []) := by
  induction f with
  | nil => intro acc _; simp [parseScan_nil]
  | cons c rest ih =>
      intro acc h
      unfold hasBraces at h
      simp only [List.any_cons, Bool.or_eq_false_iff, decide_eq_false_iff_not] at h
      obtain ⟨⟨h1, h2⟩, h3⟩ := h
      rw [parseScan_cons_other c rest acc h1 h2]
      rw [ih (acc ++ [c]) h3]
      have hne : acc ++ [c] ++ rest ≠ [] := by simp
      have hne2 : acc ++ c :: rest ≠ [] := by simp
      rw [if_neg hne, if_neg hne2]
      simp

/--
C1: when every placeholder of the parsed format is of auto form (empty
`{}`), `Sprintf` interleaves the literal segments with the default
renderings of the arguments in order — `getArgOrNoValue k` being `args[k]`
for `k < len(args)` and the `<no value>` sentinel beyond, so the first
`min(N, M)` placeholders render the arguments in order and the remaining
ones render `<no value>`; dropping the extra arguments beyond the
placeholder count does not change the output, and filling the missing ones
with explicit `<no value>` strings does not either.  The regex-based `F`,
however, misrenders the same situation: its loop is driven by the literal
list, whose empty leading/trailing entries were dropped, so
`F("{} + {} = {}", 1, 2, 3)` yields `" + 1 = 2"` where the repository's own
`TestF` expects `"1 + 2 = 3"`.
-/
theorem c1_auto_placeholders :
    (∀ (f : Str) (segs : List Str) (phs : List Ph) (args : List (Option Value)),
        parseFormatFast f = (segs, phs) →
        (∀ ph ∈ phs, ph = { posIdx := none, fieldChain := [], spec := [] }) →
        (Sprintf1 f args = some (stitchAuto segs
            ((List.range phs.length).map
              (fun k => formatValFast (getArgOrNoValue k args)))) ∧
         Sprintf1 f args = Sprintf1 f (args.take phs.length) ∧
         (args.length ≤ phs.length →
           Sprintf1 f args = Sprintf1 f
             (args ++ List.replicate (phs.length - args.length)
               (some (VStr noValueStr)))))) ∧
    (F2 emptyRegistry [] (sl (r"{} + {} = {}"))
        [some (VInt 1), some (VInt 2), some (VInt 3)]).1 = some (sl (r" + 1 = 2")) ∧
    (F2 emptyRegistry [] (sl (r"{} + {} = {}"))
        [some (VInt 1), some (VInt 2), some (VInt 3)]).1 ≠ some (sl (r"1 + 2 = 3")) := by
  refine ⟨?_, by decide, by decide⟩
  intro f segs phs args hp hall
  have hchar : ∀ args2 : List (Option Value),
      Sprintf1 f args2 = some (stitchAuto segs
        ((List.range phs.length).map
          (fun k => formatValFast (getArgOrNoValue k args2)))) := by
    intro args2
    unfold Sprintf1
    by_cases h0 : f = []
    · subst h0
      have : ((([] : List Str), ([] : List Ph)) : List Str × List Ph) = (segs, phs) := hp
      injection this with e1 e2
      subst e1
      subst e2
      simp [stitchAuto]
    · simp only [h0, if_false]
      by_cases hb : hasBraces f = true
      · simp only [hb, if_true]
        rw [hp]
        dsimp only
        rw [render1Aux_auto phs segs 0 args2 hall, List.range_eq_range']
      · simp only [hb, if_false]
        have hB := parseScan_noBraces f [] (by rwa [Bool.not_eq_true] at hb)
        unfold parseFormatFast at hp
        rw [hB] at hp
        simp only [List.nil_append] at hp
        rw [if_neg h0] at hp
        injection hp with e1 e2
        subst e1
        subst e2
        simp [stitchAuto]
  refine ⟨hchar args, ?_, ?_⟩
  · rw [hchar args, hchar (args.take phs.length)]
    apply congrArg
    apply congrArg (stitchAuto segs)
    apply List.map_eq_map_iff.mpr
    intro k hk
    have hkN : k < phs.length := List.mem_range.mp hk
    unfold getArgOrNoValue
    rw [List.get?_eq_getElem?, List.get?_eq_getElem?, List.getElem?_take_of_lt hkN]
  · intro hM
    rw [hchar args,
        hchar (args ++ List.replicate (phs.length - args.length) (some (VStr noValueStr)))]
    apply congrArg
    apply congrArg (stitchAuto segs)
    apply List.map_eq_map_iff.mpr
    intro k hk
    have hkN : k < phs.length := List.mem_range.mp hk
    unfold getArgOrNoValue
    by_cases hlt : k < args.length
    · rw [List.get?_append hlt]
    · have hle : args.length ≤ k := Nat.le_of_not_lt hlt
      rw [List.get?_len_le hle, List.get?_append_right hle]
      rw [List.get?_eq_getElem?, List.getElem?_replicate]
      rw [if_pos (by omega)]

/-- Witness for C1: with two auto placeholders and three arguments, the
third argument is ignored. -/
theorem c1_auto_placeholders_witness :
    Sprintf1 (sl (r"{} and {}")) [some (VInt 1), some (VInt 2), some (VInt 3)] =
      Sprintf1 (sl (r"{} and {}"))
        ([some (VInt 1), some (VInt 2), some (VInt 3)].take
          ((parseFormatFast (sl (r"{} and {}"))).2.length)) :=
  (c1_auto_placeholders.1 (sl (r"{} and {}"))
    ((parseFormatFast (sl (r"{} and {}"))).1)
    ((parseFormatFast (sl (r"{} and {}"))).2)
    [some (VInt 1), some (VInt 2), some (VInt 3)] rfl (by decide)).2.1

end Fstr
